import Mathlib

set_option maxHeartbeats 1000000
set_option maxRecDepth 4000

/-!
Verification development for the astrogo/fitsio FITS codec.

The definitions below are a shallow embedding of the Go sources:
bytes are modelled as `Nat` values (< 256 where relevant), Go `int`/`int64`
as `Int` or `Nat`, Go float values by the exact rational they represent
(float32 to float64 conversion is exact, so it is the identity on this
carrier), and Go errors as `Except String` / `Option String` results.
Go code that mutates a receiver is modelled by returning the new state
together with the error, exactly in the order the source performs the
mutations, so that partially applied mutations before an error are
preserved by the model.
-/

/-- FITS block size in bytes.  Modelled from the spec: the `blockSize`
constant itself is declared outside the provided sources, but the spec fixes
it ("Block size is exactly 2880 bytes") and the decoder comments agree
("data array is also aligned at 2880-bytes blocks"). -/
def blockSize : Nat := 2880

/-- Embedding of `padBlock` (buffer helpers): padding needed to reach a FITS
block boundary. -/
def padBlock (sz : Nat) : Nat := (blockSize - sz % blockSize) % blockSize

/-- Embedding of `alignBlock`: size rounded up to a FITS block boundary. -/
def alignBlock (sz : Nat) : Nat := sz + padBlock sz

/-- Dynamic type of a Go `fitsio.Value` (an `interface{}`) held by a header
`Card`.  Each constructor records the dynamic Go type together with the
mathematical value: signed integers as `Int`, unsigned as `Nat`, floats and
complex components by the rational number they represent, `big.Int` as `Int`.
`nil` is Go's nil interface (an undefined card value). -/
inductive CardValue : Type
  | nil
  | bool (b : Bool)
  | i8 (v : Int)
  | i16 (v : Int)
  | i32 (v : Int)
  | i64 (v : Int)
  | int (v : Int)
  | u8 (v : Nat)
  | u16 (v : Nat)
  | u32 (v : Nat)
  | u64 (v : Nat)
  | uint (v : Nat)
  | f32 (v : Rat)
  | f64 (v : Rat)
  | c64 (re im : Rat)
  | c128 (re im : Rat)
  | str (s : String)
  | bigInt (v : Int)
  deriving DecidableEq, Repr

/-- Embedding of `Card` (card.go): one header record. -/
structure Card where
  name : String
  value : CardValue
  comment : String
  deriving DecidableEq, Repr

/-- Embedding of `HDUType` (hdu.go). -/
inductive HDUType : Type
  | IMAGE_HDU
  | ASCII_TBL
  | BINARY_TBL
  | ANY_HDU
  deriving DecidableEq, Repr

/-- Embedding of `Header` (header.go). -/
structure Header where
  htype : HDUType
  bitpix : Int
  axes : List Int
  cards : List Card
  deriving DecidableEq, Repr

/-- Go conversion `int(u)` applied to a `uint64` value: two's-complement
wrap-around into the signed 64-bit range. -/
def uintToInt (v : Nat) : Int :=
  let m : Nat := v % 2 ^ 64
  if m < 2 ^ 63 then (m : Int) else (m : Int) - 2 ^ 64

/-- Value normalisation performed by `Header.Append` (header.go): the
`reflect` switch maps every signed-integer kind to Go `int`, every
unsigned kind through `int(rv.Uint())`, floats to `float64`, complex to
`complex128`; strings, bools and `big.Int` (the `reflect.Struct` case) pass
through; an invalid (`nil`) value is left untouched. -/
def normalizeAppend : CardValue → CardValue
  | .i8 v => .int v
  | .i16 v => .int v
  | .i32 v => .int v
  | .i64 v => .int v
  | .int v => .int v
  | .u8 v => .int (uintToInt v)
  | .u16 v => .int (uintToInt v)
  | .u32 v => .int (uintToInt v)
  | .u64 v => .int (uintToInt v)
  | .uint v => .int (uintToInt v)
  | .f32 v => .f64 v
  | .f64 v => .f64 v
  | .c64 re im => .c128 re im
  | .c128 re im => .c128 re im
  | .str s => .str s
  | .bool b => .bool b
  | .bigInt v => .bigInt v
  | .nil => .nil

/-- Value normalisation performed by `Header.prepend` (header.go): identical
to the `Append` switch except that it has no `reflect.Struct` case, so a
`big.Int` value falls into the default branch and is rejected. -/
def normalizePrepend : CardValue → Except String CardValue
  | .bigInt _ => .error "fitsio: invalid value type for card"
  | v => .ok (normalizeAppend v)

/-- The three free-form card names whose duplicates `Append`/`prepend`
admit (header.go, the duplicate switch). -/
def freeFormName (n : String) : Bool :=
  n == "COMMENT" || n == "HISTORY" || n == ""

/-- Loop body of `Header.Append` (header.go).  The duplicate-detection map
`keys` is built once from the cards present at entry and never extended
inside the loop, exactly as in the source.  Free-form duplicates are
appended verbatim (skipping normalisation); a duplicate `END` is dropped;
any other duplicate aborts with an error, keeping the cards already
appended by this call. -/
def appendLoop (keys : List String) : Header → List Card → Header × Option String
  | hdr, [] => (hdr, none)
  | hdr, c :: rest =>
    if keys.contains c.name then
      if freeFormName c.name then
        appendLoop keys { hdr with cards := hdr.cards ++ [c] } rest
      else if c.name == "END" then
        appendLoop keys hdr rest
      else
        (hdr, some ("fitsio: duplicate Card [" ++ c.name ++ "]"))
    else
      appendLoop keys
        { hdr with cards := hdr.cards ++ [{ c with value := normalizeAppend c.value }] } rest

/-- Embedding of `Header.Append` (header.go). -/
def Header.Append (hdr : Header) (cs : List Card) : Header × Option String :=
  appendLoop (hdr.cards.map (fun c => c.name)) hdr cs

/-- Loop body of `Header.prepend` (header.go): like `appendLoop` but the
accepted cards are collected in `hcards` (to be placed before the existing
cards), while free-form duplicates are appended at the back immediately. -/
def prependLoop (keys : List String) :
    Header → List Card → List Card → (Header × List Card) × Option String
  | hdr, hcards, [] => ((hdr, hcards), none)
  | hdr, hcards, c :: rest =>
    if keys.contains c.name then
      if freeFormName c.name then
        prependLoop keys { hdr with cards := hdr.cards ++ [c] } hcards rest
      else if c.name == "END" then
        prependLoop keys hdr hcards rest
      else
        ((hdr, hcards), some ("fitsio: duplicate Card [" ++ c.name ++ "]"))
    else
      match normalizePrepend c.value with
      | .ok v => prependLoop keys hdr (hcards ++ [{ c with value := v }]) rest
      | .error e => ((hdr, hcards), some e)

/-- Embedding of `Header.prepend` (header.go).  On success the collected
cards are placed in front of the existing ones; on error the collected
cards are discarded (the source returns before the final prepend). -/
def Header.Prepend (hdr : Header) (cs : List Card) : Header × Option String :=
  match prependLoop (hdr.cards.map (fun c => c.name)) hdr [] cs with
  | ((h, hcards), none) => ({ h with cards := hcards ++ h.cards }, none)
  | ((h, _), some e) => (h, some e)

/-- Embedding of `Header.Get` (header.go): linear scan, first match wins. -/
def Header.Get (hdr : Header) (n : String) : Option Card :=
  hdr.cards.find? (fun c => c.name == n)

/-- In-place update of the first card with the given name, as done through
the pointer returned by `Header.get`. -/
def updateFirst (n : String) (v : CardValue) (comment : String) : List Card → List Card
  | [] => []
  | c :: rest =>
    if c.name == n then { c with value := v, comment := comment } :: rest
    else c :: updateFirst n v comment rest

/-- Embedding of `Header.Set` (header.go): if a card with name `n` exists,
its value and comment are overwritten verbatim (no normalisation);
otherwise the card is appended through `Header.Append` (whose error, as in
the source, is ignored). -/
def Header.Set (hdr : Header) (n : String) (v : CardValue) (comment : String) : Header :=
  match hdr.Get n with
  | none => (hdr.Append [⟨n, v, comment⟩]).1
  | some _ => { hdr with cards := updateFirst n v comment hdr.cards }

/-- Embedding of `newHeader` (header.go): builds the raw header and appends
the given cards; the source panics on an append error, modelled as an
`Except` error. -/
def newHeaderE (cards : List Card) (htype : HDUType) (bitpix : Int) (axes : List Int) :
    Except String Header :=
  let hdr : Header := { htype := htype, bitpix := bitpix, axes := axes, cards := [] }
  match hdr.Append cards with
  | (h, none) => .ok h
  | (_, some e) => .error e

/-- Embedding of `NewHeader` (header.go): after `newHeader`, the mandatory
cards `BITPIX`, `NAXIS` and, when the corresponding axes exist, `NAXIS1`
and `NAXIS2` are prepended when absent.  Note the source materialises no
`NAXISn` card beyond `NAXIS2`, whatever the number of axes. -/
def NewHeaderE (cards : List Card) (htype : HDUType) (bitpix : Int) (axes : List Int) :
    Except String Header :=
  match newHeaderE cards htype bitpix axes with
  | .error e => .error e
  | .ok hdr =>
  let keys := hdr.cards.map (fun c => c.name)
  let d1 : List Card :=
    if keys.contains "BITPIX" then []
    else [⟨"BITPIX", .int hdr.bitpix, "number of bits per data pixel"⟩]
  let d2 : List Card :=
    if keys.contains "NAXIS" then []
    else [⟨"NAXIS", .int (hdr.axes.length : Int), "number of data axes"⟩]
  let d3 : List Card :=
    match hdr.axes with
    | a1 :: _ =>
      if keys.contains "NAXIS1" then []
      else [⟨"NAXIS1", .int a1, "length of data axis 1"⟩]
    | [] => []
  let d4 : List Card :=
    match hdr.axes with
    | _ :: a2 :: _ =>
      if keys.contains "NAXIS2" then []
      else [⟨"NAXIS2", .int a2, "length of data axis 2"⟩]
    | _ => []
  match hdr.Prepend (d1 ++ d2 ++ d3 ++ d4) with
  | (h, none) => .ok h
  | (_, some e) => .error e

/-- Header of `NewImage bitpix axes` (image.go): `NewHeader nil IMAGE_HDU
bitpix axes`. -/
def newImageHeader (bitpix : Int) (axes : List Int) : Except String Header :=
  NewHeaderE [] .IMAGE_HDU bitpix axes

/-- First-HDU preparation done by `File.Write` (file.go): when the file is
still empty and the image header has no `SIMPLE` card, one is prepended. -/
def fileWriteFirstHeader (hdr : Header) : Except String Header :=
  if (hdr.Get "SIMPLE").isSome then .ok hdr
  else
    match hdr.Prepend [⟨"SIMPLE", .bool true, "primary HDU"⟩] with
    | (h, none) => .ok h
    | (_, some e) => .error e

/-- Decoder-side card collection state of `streamDecoder.DecodeHDU`
(decoder.go): the ordered `slice` of cards plus the name-to-index map
`cards` (an association list where an update replaces the old binding,
like a Go map assignment). -/
structure DecodeState where
  slice : List Card
  idx : List (String × Nat)
  deriving DecidableEq, Repr

/-- Go map assignment `m[k] = v`: replace the binding if present, else add. -/
def mapSet (m : List (String × Nat)) (k : String) (v : Nat) : List (String × Nat) :=
  match m with
  | [] => [(k, v)]
  | (k0, v0) :: rest =>
    if k0 == k then (k, v) :: rest else (k0, v0) :: mapSet rest k v

/-- Go map lookup `m[k]`. -/
def mapGet (m : List (String × Nat)) (k : String) : Option Nat :=
  match m with
  | [] => none
  | (k0, v0) :: rest => if k0 == k then some v0 else mapGet rest k

/-- Embedding of the decoder's `add_card` closure (decoder.go): free-form
cards are only appended; any other card is appended and its map entry is
set to its slice index - for a duplicate name this silently overwrites the
map entry (C FITSIO compatibility, issue 38) while the older card stays in
the slice. -/
def addCard (st : DecodeState) (c : Card) : DecodeState :=
  if c.name == "COMMENT" || c.name == "HISTORY" || c.name == "" then
    { st with slice := st.slice ++ [c] }
  else
    { slice := st.slice ++ [c], idx := mapSet st.idx c.name st.slice.length }

/-- Embedding of the decoder's `get_card` closure (decoder.go). -/
def getCard (st : DecodeState) (k : String) : Option Card :=
  match mapGet st.idx k with
  | some i => st.slice.get? i
  | none => none

/-- Card-collection loop of `DecodeHDU` over the already-parsed header
lines (the 80-byte line parsing itself is `parseHeaderLine`; see
`parseValue` below for its value grammar).  A `CONTINUE` card appends its
quoted fragment (carried in the comment field) to the previous card's
string value, dropping that value's trailing character; the loop stops
after adding the `END` card.  The source's slice-index and type-assertion
panics on a malformed `CONTINUE` are modelled as errors. -/
def collectCards (st : DecodeState) : List Card → Except String DecodeState
  | [] => .ok st
  | c :: rest =>
    if c.name == "CONTINUE" then
      match st.slice.getLast? with
      | some last =>
        match last.value with
        | .str s =>
          let last2 :=
            if s.length > 0 then
              { last with value := .str (String.mk (s.toList.dropLast) ++ c.comment) }
            else last
          collectCards { st with slice := st.slice.dropLast ++ [last2] } rest
        | _ => .error "fitsio: CONTINUE follows a non-string card"
      | none => .error "fitsio: CONTINUE with no previous card"
    else
      let st2 := addCard st c
      if c.name == "END" then .ok st2 else collectCards st2 rest

/-- Name of the i-th axis card, as built with `fmt.Sprintf` in
`DecodeHDU`. -/
def naxisName (i : Nat) : String := "NAXIS" ++ toString i

/-- Lookup of one `NAXISn` card by the decoder; a missing card is the
source's `missing key` error, a non-integer value its type-assertion
panic. -/
def readAxis (st : DecodeState) (i : Nat) : Except String Int :=
  match getCard st (naxisName i) with
  | none => .error ("fitsio: missing " ++ naxisName i ++ " key")
  | some c =>
    match c.value with
    | .int v => .ok v
    | _ => .error "fitsio: NAXIS axis value is not an int"

/-- Axes extraction of `DecodeHDU` after the `END` card was found: `NAXIS`
fixes the count and `NAXIS1..NAXISn` fill the axes list; without a `NAXIS`
card the axes list stays empty. -/
def decodeAxes (st : DecodeState) : Except String (List Int) :=
  match getCard st "NAXIS" with
  | none => .ok []
  | some c =>
    match c.value with
    | .int n => (List.range n.toNat).mapM (fun i => readAxis st (i + 1))
    | _ => .error "fitsio: NAXIS value is not an int"

/-- Embedding of `hduTypeFrom` (decoder.go): the first `SIMPLE` or
`XTENSION` card decides the HDU type (and primary-ness). -/
def hduTypeFrom : List Card → Except String (HDUType × Bool)
  | [] => .error "fitsio: invalid header (missing SIMPLE or XTENSION card)"
  | c :: rest =>
    if c.name == "SIMPLE" then .ok (.IMAGE_HDU, true)
    else if c.name == "XTENSION" then
      match c.value with
      | .str s =>
        if s == "IMAGE" then .ok (.IMAGE_HDU, false)
        else if s == "TABLE" then .ok (.ASCII_TBL, false)
        else if s == "BINTABLE" then .ok (.BINARY_TBL, false)
        else if s == "ANY" || s == "ANY_HDU" then .ok (.ANY_HDU, false)
        else .error "fitsio: invalid XTENSION value"
      | _ => .error "fitsio: XTENSION value is not a string"
    else hduTypeFrom rest

/-- Header part of `streamDecoder.DecodeHDU` (decoder.go), over the parsed
card stream: collect the cards (duplicates silently tolerated by
`add_card`), require the `END` card, extract axes, HDU type and `BITPIX`,
then rebuild the header with `NewHeader` from the collected slice. -/
def decodeHeaderCards (input : List Card) : Except String Header :=
  match collectCards ⟨[], []⟩ input with
  | .error e => .error e
  | .ok st =>
    if (getCard st "END").isNone then .error "fitsio: truncated header (no END card)"
    else
      match decodeAxes st with
      | .error e => .error e
      | .ok axes =>
        match hduTypeFrom st.slice with
        | .error e => .error e
        | .ok tp =>
          match getCard st "BITPIX" with
          | some c =>
            match c.value with
            | .int v => NewHeaderE st.slice tp.1 v axes
            | _ => .error "fitsio: BITPIX value is not an int"
          | none => .error "fitsio: missing BITPIX card"

/-- Test cube from the repository's `TestImageCubeRoundTrip`
(image_test.go): the header card stream emitted by `EncodeHDU` for
`NewImage 16 [2, 3, 6]` after `File.Write` prepended `SIMPLE` - the card
lines in order, followed by the `END` line the encoder always adds.  The
80-byte line codec maps each of these simple cards to a line and back to a
card with the same name and value, so the decoder sees exactly this card
stream. -/
def imageCubeEmittedCards : List Card :=
  match newImageHeader 16 [2, 3, 6] with
  | .error _ => []
  | .ok h =>
    match fileWriteFirstHeader h with
    | .error _ => []
    | .ok h2 => h2.cards ++ [⟨"END", .nil, ""⟩]

/-- State of a `Rows` cursor (rows.go).  The latched terminal error is
`none` for Go's nil. -/
structure RowsState where
  i : Int
  n : Int
  inc : Int
  cur : Int
  closed : Bool
  err : Option String
  deriving DecidableEq, Repr

/-- Embedding of `Rows.Close` (rows.go): idempotent, always returns nil. -/
def rowsClose (r : RowsState) : Option String × RowsState :=
  if r.closed then (none, r)
  else (none, { r with closed := true })

/-- Embedding of `Rows.Next` (rows.go): when already closed it returns
false; otherwise it advances `cur` and `i` by `inc` and, if `i` had
already reached `n`, closes the cursor and latches `Close`'s nil result
as the terminal error. -/
def rowsNext (r : RowsState) : Bool × RowsState :=
  if r.closed then (false, r)
  else
    let next := r.i < r.n
    let r1 := { r with cur := r.cur + r.inc, i := r.i + r.inc }
    if next then (true, r1)
    else
      let c := rowsClose r1
      (false, { c.2 with err := c.1 })

/-- Embedding of `Table.ReadRange` (table.go): `end` is clamped to the
row count from above and `beg` to zero from below; the cursor starts at
`beg - inc`. -/
def tableReadRange (nrows beg endr inc : Int) : RowsState :=
  let endr := if endr > nrows then nrows else endr
  let beg := if beg < 0 then 0 else beg
  { i := beg, n := endr, inc := inc, cur := beg - inc, closed := false, err := none }

/-- Embedding of `Table.Read` (table.go): `ReadRange` with stride 1. -/
def tableRead (nrows beg endr : Int) : RowsState :=
  tableReadRange nrows beg endr 1

/-- Iterate `Next` m times, collecting the returned booleans. -/
def runNext (r : RowsState) : Nat → List Bool × RowsState
  | 0 => ([], r)
  | m + 1 =>
    let s := rowsNext r
    let t := runNext s.2 m
    (s.1 :: t.1, t.2)

/-- One entry of `File.closers` (file.go): either a decoded HDU (whose
`Close` does nothing and returns nil) or the underlying byte source/sink,
which `Open`/`Create` register whenever it implements `io.Closer`. -/
inductive CloserKind : Type
  | hduC
  | sourceC
  deriving DecidableEq, Repr

/-- Model of a `File` for the close path: the ordered closer list and
whether the underlying stream has been closed. -/
structure FileState where
  closers : List CloserKind
  srcClosed : Bool
  deriving DecidableEq, Repr

/-- Close one registered closer.  `imageHDU.Close`/`Table.Close` return
nil and do nothing.  Closing the underlying stream marks it closed and
returns nil; re-closing an already-closed stream returns `againErr`, the
environment-chosen result of the external `io.Closer` (unspecified by the
interface; nil for tolerant closers, an error for `os.File`). -/
def closeOne (againErr : Option String) (st : FileState) :
    CloserKind → Option String × FileState
  | .hduC => (none, st)
  | .sourceC =>
    if st.srcClosed then (againErr, st)
    else (none, { st with srcClosed := true })

/-- Loop of `File.Close` (file.go): close every registered closer in
order, stopping at the first error. -/
def fileCloseLoop (againErr : Option String) :
    FileState → List CloserKind → Option String × FileState
  | st, [] => (none, st)
  | st, c :: rest =>
    match closeOne againErr st c with
    | (some e, st2) => (some e, st2)
    | (none, st2) => fileCloseLoop againErr st2 rest

/-- Embedding of `File.Close` (file.go). -/
def fileClose (againErr : Option String) (st : FileState) : Option String × FileState :=
  fileCloseLoop againErr st st.closers

/-- File state built by `Open`/`Create` (file.go): the underlying stream
is registered first when it implements `io.Closer`, then every decoded
HDU. -/
def openFile (srcIsCloser : Bool) (nhdus : Nat) : FileState :=
  { closers := (if srcIsCloser then [.sourceC] else []) ++ List.replicate nhdus .hduC,
    srcClosed := false }

/-- A run of ASCII spaces. -/
def spaces (n : Nat) : String := String.mk (List.replicate n ' ')

/-- Go `fmt` left-justified padding `%-ws` (never truncates). -/
def padR (s : String) (w : Nat) : String :=
  if s.length < w then s ++ spaces (w - s.length) else s

/-- Go `fmt` right-justified padding `%ws` / `%wd` (never truncates). -/
def padL (s : String) (w : Nat) : String :=
  if s.length < w then spaces (w - s.length) ++ s else s

/-- First n characters of a string (Go slice `s[:n]`). -/
def strTake (s : String) (n : Nat) : String := String.mk (s.toList.take n)

/-- Split a character list into consecutive chunks of n characters, as the
`for i := 0; i < len; i += n` loops of `makeHeaderLine` do. -/
def chunkList (n : Nat) (l : List Char) : List (List Char) :=
  if h : l = [] ∨ n = 0 then []
  else l.take n :: chunkList n (l.drop n)
termination_by l.length
decreasing_by
  simp only [not_or] at h
  have hl : 0 < l.length := List.length_pos.mpr h.1
  simp only [List.length_drop]
  omega

/-- Character class accepted by `verifyCardName` (header line codec). -/
def isNameChar (c : Char) : Bool :=
  decide (('A' ≤ c ∧ c ≤ 'Z') ∨ ('0' ≤ c ∧ c ≤ '9') ∨ c = '-' ∨ c = '_')

/-- Loop of `verifyCardName`: a name character after a space is an
embedded-space error, other characters are illegal. -/
def verifyNameLoop (sp : Bool) : List Char → Option String
  | [] => none
  | c :: rest =>
    if isNameChar c then
      if sp then some "fitsio: card name contains embedded spaces"
      else verifyNameLoop sp rest
    else if c == ' ' then verifyNameLoop true rest
    else some "fitsio: card name contains illegal character"

/-- Embedding of `verifyCardName` (header line codec): `none` means the
name conforms to the FITS standard. -/
def verifyCardName (name : String) : Option String :=
  verifyNameLoop false name.toList

/-- The COMMENT/HISTORY/blank-name branch of `makeHeaderLine`: the comment
is emitted in 72-character chunks, each preceded by the 8-character name
field.  An empty comment yields no line at all. -/
def commentLines (name : String) (comment : String) : String :=
  String.join ((chunkList 72 comment.toList).map
    (fun ch => padR name 8 ++ padR (String.mk ch) 72))

/-- The CONTINUE lines of `makeHeaderLine` for a long string value: each
67-character chunk is ampersand-terminated exactly when it is full (the
source only omits the marker when the chunk end exceeds the string). -/
def contLines (chunks : List (List Char)) : String :=
  String.join (chunks.map (fun ch =>
    "CONTINUE" ++ "  " ++
      padR ("'" ++ padR (String.mk ch ++ (if ch.length = 67 then "&" else "")) 8 ++ "'") 20))

/-- Environment models of Go's `fmt` float formatting used by
`makeHeaderLine`: `f20` for `%20f` and `f10` for `%10f`.  The padding and
alignment proofs below hold for every choice of these functions, so the
exact decimal rendering of IEEE doubles is left as a parameter. -/
structure FloatFmt where
  f20 : Rat → String
  f10 : Rat → String

/-- Embedding of `makeHeaderLine` (header line codec): builds the 80-byte
line (or lines) of one card.  The recursive COMMENT-card call of the
source lands in the free-form branch, embedded here as `commentLines`.
The source's panic on a non-normalised value type is an error. -/
def makeHeaderLine (fm : FloatFmt) (card : Card) : Except String String :=
  if card.name == "" || card.name == "COMMENT" || card.name == "HISTORY" then
    .ok (commentLines card.name card.comment)
  else if card.name == "END" then
    .ok (padR "END" 80)
  else do
    let key ←
      if decide (card.name.length ≤ 8) && (verifyCardName card.name).isNone then
        Except.ok (padR card.name 8 ++ "= ", 10, true)
      else if card.name.toList.contains '=' then
        Except.error "fitsio: illegal keyword name. contains an equal sign"
      else
        let k :=
          if strTake card.name 9 == "HIERARCH " || strTake card.name 9 == "hierarch " then
            card.name
          else "HIERARCH " ++ card.name
        Except.ok (k ++ "= ", (k ++ "= ").length, false)
    let buf0 := key.1
    let klen := key.2.1
    match card.value with
    | .nil =>
      let buf :=
        if klen == 10 then
          let b := padR card.name 8 ++ "  "
          if card.comment != "" then b ++ strTake (" / " ++ card.comment) (80 - 10)
          else b
        else buf0
      .ok (buf ++ spaces ((80 - buf.length % 80) % 80))
    | v => do
      let buflen := buf0.length
      let r ←
        match v with
        | .str s =>
          let vstr := if s == "" then "''" else "'" ++ padR s 8 ++ "'"
          if vstr.length < 80 - buflen then
            Except.ok (buf0 ++ padR vstr 20, (padR vstr 20).length, buflen)
          else
            let sz := 80 - buflen - 1 - 2
            let v1 := "'" ++ padR (strTake s sz ++ "&") 8 ++ "'"
            let b1 := buf0 ++ padR v1 20 ++ contLines (chunkList 67 (s.toList.drop sz))
            let b2 := b1 ++ spaces ((80 - b1.length % 80) % 80)
            Except.ok (b2, 0, b2.length % 80)
        | .bool b =>
          Except.ok (buf0 ++ padL (if b then "T" else "F") 20, 20, buflen)
        | .int k =>
          Except.ok (buf0 ++ padL (toString k) 20, (padL (toString k) 20).length, buflen)
        | .f64 q =>
          Except.ok (buf0 ++ fm.f20 q, (fm.f20 q).length, buflen)
        | .c128 re im =>
          let s := "(" ++ fm.f10 re ++ "," ++ fm.f10 im ++ ")"
          Except.ok (buf0 ++ s, s.length, buflen)
        | .bigInt k =>
          Except.ok (buf0 ++ toString k, (toString k).length, buflen)
        | _ => Except.error "fitsio: invalid card value"
      let buf1 := r.1
      let n := r.2.1
      let blen := r.2.2
      if n + blen > 80 then .error "fitsio: value-string too big"
      else
        let buflen2 := buf1.length % 80
        let comment := " / " ++ card.comment
        let buf2 ←
          if comment.length > 80 - buflen2 ||
              (decide (buf1.length > 80) && decide (buf1.length % 80 == 0)) then
            let b :=
              if buflen2 > 0 then buf1 ++ spaces (80 - buflen2) else buf1
            Except.ok (b ++ commentLines "COMMENT" card.comment)
          else
            Except.ok (buf1 ++ comment)
        .ok (buf2 ++ spaces ((80 - buf2.length % 80) % 80))

/-- ASCII byte of the space character, the padding byte of header blocks
and ASCII-table payloads. -/
def spaceByte : Nat := 32

/-- String to FITS bytes (the sources hold ASCII, one byte per char). -/
def sbytes (s : String) : List Nat := s.toList.map Char.toNat

/-- Loop of `streamEncoder.EncodeHDU` over the header cards: each card
serialised by `makeHeaderLine`, the first error aborting. -/
def headerLines (fm : FloatFmt) : List Card → Except String (List String)
  | [] => .ok []
  | c :: rest =>
    match makeHeaderLine fm c, headerLines fm rest with
    | .error e, _ => .error e
    | .ok _, .error e => .error e
    | .ok l, .ok ls => .ok (l :: ls)

/-- Header part of `streamEncoder.EncodeHDU` (encoder.go): every card's
line, an `END` line, then space padding to the block boundary, with the
source's final alignment self-check. -/
def encodeHeader (fm : FloatFmt) (cards : List Card) : Except String (List Nat) :=
  match headerLines fm cards, makeHeaderLine fm ⟨"END", .nil, ""⟩ with
  | .error e, _ => .error e
  | .ok _, .error e => .error e
  | .ok lines, .ok endLine =>
    let raw := sbytes (String.join lines ++ endLine)
    let buf := raw ++ List.replicate (padBlock raw.length) spaceByte
    if alignBlock buf.length ≠ buf.length then .error "fitsio: header not aligned"
    else .ok buf

/-- Embedding of `streamEncoder.saveImage` (encoder.go): raw pixels plus
zero padding to the block boundary. -/
def saveImage (raw : List Nat) : List Nat :=
  raw ++ List.replicate (padBlock raw.length) 0

/-- Embedding of `streamEncoder.saveTable` (encoder.go): data then heap,
padded to the block boundary with zero bytes for a binary table and ASCII
spaces for an ASCII table. -/
def saveTable (data heap : List Nat) (binary : Bool) : List Nat :=
  data ++ heap ++
    List.replicate (padBlock (data.length + heap.length)) (if binary then 0 else spaceByte)

/-- Payload of an HDU as the encoder sees it. -/
inductive Payload : Type
  | image (raw : List Nat)
  | table (data heap : List Nat) (binary : Bool)
  deriving DecidableEq, Repr

/-- Embedding of `streamEncoder.EncodeHDU` (encoder.go): header block then
payload block, dispatched on the header's HDU type (the padding byte of a
table payload follows the table's own binary flag, as in `saveTable`).
The source's interface type assertions on a mismatched payload are
errors. -/
def EncodeHDU (fm : FloatFmt) (hdr : Header) (p : Payload) : Except String (List Nat) :=
  match encodeHeader fm hdr.cards with
  | .error e => .error e
  | .ok hb =>
  match hdr.htype, p with
  | .IMAGE_HDU, .image raw => .ok (hb ++ saveImage raw)
  | .BINARY_TBL, .table d h b => .ok (hb ++ saveTable d h b)
  | .ASCII_TBL, .table d h b => .ok (hb ++ saveTable d h b)
  | .ANY_HDU, _ => .error "fitsio: encoding for HDU not implemented"
  | _, _ => .error "fitsio: HDU payload type mismatch"

/-- Embedding of `sectionWriter.Write` (buffer.go) through the Go slice
aliasing: one write of `p` at the start of the section `[beg, beg+width)`
of the table's data buffer.  The copy transfers `min (p.length) width`
bytes; a short copy is the source's short-write error. -/
def sectionWrite (tdata : List Nat) (beg width : Nat) (p : List Nat) :
    (Nat × Option String) × List Nat :=
  let n := min p.length width
  let out := tdata.take beg ++ p.take n ++ tdata.drop (beg + n)
  if n < p.length then ((n, some "fitsio: short write"), out) else ((n, none), out)

/-- Big-endian two-byte encoding of an int16 (two's complement), as the
binary encoder serialises it. -/
def be16 (v : Int) : List Nat :=
  let u := (v % 65536).toNat
  [u / 256 % 256, u % 256]

/-- Big-endian four-byte encoding of an int32. -/
def be32 (v : Int) : List Nat :=
  let u := (v % 4294967296).toNat
  [u / 16777216 % 256, u / 65536 % 256, u / 256 % 256, u % 256]

/-- Big-endian eight-byte encoding of an int64. -/
def be64 (v : Int) : List Nat :=
  let u := (v % 18446744073709551616).toNat
  [u / 72057594037927936 % 256, u / 281474976710656 % 256,
   u / 1099511627776 % 256, u / 4294967296 % 256,
   u / 16777216 % 256, u / 65536 % 256, u / 256 % 256, u % 256]

/-- The fields of `Column` (column.go) used by the binary write path:
the byte offset inside a row, the on-row size `dsize`, the element count
`clen` (`dtype.len`) and the per-element heap size `hsize`. -/
structure ColumnM where
  offset : Nat
  dsize : Nat
  clen : Nat
  hsize : Nat
  deriving DecidableEq, Repr

/-- Fields of `Table` (table.go) touched by the write path.  `nrows` is
the source's int64 row count (non-negative in every reachable state) and
`axes` the header's axes list, whose second entry is `NAXIS2`. -/
structure TableM where
  data : List Nat
  heap : List Nat
  rowsz : Nat
  nrows : Nat
  axes : List Int
  cols : List ColumnM
  deriving DecidableEq, Repr

/-- Embedding of `Column.writeBin` (column.go), instantiated at the value
kinds the claims exercise: an int16 scalar, a variable-length int16 array
(the `reflect.Slice` case: a (length, heap offset) descriptor of
`dsize` bytes goes into the row - 32-bit fields when `dsize = 8`, 64-bit
when `dsize = 16`, nothing otherwise - and the encoded elements are
appended to the heap), a string (leading NUL, truncation at the declared
width, NUL right-padding), and a value of an unhandled kind (the
source's default error case). -/
inductive Cell : Type
  | i16 (v : Int)
  | sliceI16 (xs : List Int)
  | str (s : String)
  | unsupported
  deriving DecidableEq, Repr

def colWriteBin (t : TableM) (col : ColumnM) (irow : Nat) (cell : Cell) :
    TableM × Option String :=
  match cell with
  | .i16 v =>
    let beg := t.rowsz * irow + col.offset
    let r := sectionWrite t.data beg col.dsize (be16 v)
    ({ t with data := r.2 }, r.1.2)
  | .sliceI16 xs =>
    let beg := t.rowsz * irow + col.offset
    let descr : Option (List Nat) :=
      if col.dsize == 8 then some (be32 (xs.length : Int) ++ be32 (t.heap.length : Int))
      else if col.dsize == 16 then some (be64 (xs.length : Int) ++ be64 (t.heap.length : Int))
      else none
    let st :=
      match descr with
      | some d =>
        let r := sectionWrite t.data beg col.dsize d
        ({ t with data := r.2 }, r.1.2)
      | none => (t, none)
    match st with
    | (t1, some e) => (t1, some e)
    | (t1, none) =>
      ({ t1 with heap := t1.heap ++ (xs.map be16).flatten }, none)
  | .str s =>
    let beg := t.rowsz * irow + col.offset
    let width := col.dsize
    let d0 : List Nat := 0 :: sbytes s
    let n0 := d0.length
    let n1 := if n0 > width then width else n0
    let d1 := if n1 < width then d0 ++ List.replicate (width - n1) 0 else d0
    let n2 := if n1 < width then d1.length else n1
    let r := sectionWrite t.data beg width (d1.take n2)
    ({ t with data := r.2 }, r.1.2)
  | .unsupported => (t, some "fitsio: binary-table can not read or write this kind")

/-- Column loop of `Table.write` (table.go): each column's writer runs in
order with the pre-increment row index; the first error stops the loop. -/
def writeColsLoop (irow : Nat) :
    TableM → List ColumnM → List Cell → TableM × Option String
  | t, [], _ => (t, none)
  | t, _ :: _, [] => (t, none)
  | t, col :: cs, a :: rest =>
    match colWriteBin t col irow a with
    | (t2, some e) => (t2, some e)
    | (t2, none) => writeColsLoop irow t2 cs rest

/-- Embedding of `Table.Write` (table.go) on positional values: the data
buffer is extended by one zeroed row first; then the argument-count check
and the per-column writers run; only if every writer succeeds are the row
count and the `NAXIS2` axis incremented. -/
def TableWrite (t : TableM) (args : List Cell) : TableM × Option String :=
  let t1 := { t with data := t.data ++ List.replicate t.rowsz 0 }
  match args with
  | [] => (t1, some "fitsio: Rows.Scan needs at least one argument")
  | _ =>
    if args.length != t1.cols.length then
      (t1, some "fitsio.Table.Write: invalid number of arguments")
    else
      match writeColsLoop t1.nrows t1 t1.cols args with
      | (t2, some e) => (t2, some e)
      | (t2, none) =>
        ({ t2 with nrows := t2.nrows + 1,
                   axes := t2.axes.set 1 (t2.axes.getD 1 0 + 1) }, none)

/-- The ASCII apostrophe, written without a character escape. -/
def quoteChar : Char := Char.ofNat 39

/-- Right-trim of ASCII spaces, as `strings.TrimRight(s, " ")`. -/
def trimRightSpaces (l : List Char) : List Char :=
  (l.reverse.dropWhile (fun c => c == ' ')).reverse

/-- Loop of `processString` (header line codec), the three-state machine
over quoted FITS strings.  The result is either the collected value with
the index at which the value ended (the in-loop return) or, when the input
is exhausted, the accumulated characters for the post-loop check. -/
def psGo : Nat → List Char → Nat → List Char → Except String ((List Char × Nat) ⊕ List Char)
  | _, acc, _, [] => .ok (.inr acc)
  | 0, acc, i, c :: rest =>
    if c == quoteChar then psGo 1 acc (i + 1) rest
    else .error "fitsio: string does not start with a quote"
  | 1, acc, i, c :: rest =>
    if c == quoteChar then psGo 2 acc (i + 1) rest
    else psGo 1 (acc ++ [c]) (i + 1) rest
  | 2, acc, i, c :: rest =>
    if c == quoteChar then psGo 1 (acc ++ [c]) (i + 1) rest
    else .ok (.inl (trimRightSpaces acc, i))
  | _ + 3, _, _, _ :: _ => .error "fitsio: invalid string state"

/-- Embedding of `processString` (header line codec). -/
def processString (s : List Char) : Except String (List Char × Nat) :=
  match psGo 0 [] 0 s with
  | .error e => .error e
  | .ok (.inl r) => .ok r
  | .ok (.inr acc) =>
    match s.getLast? with
    | some c =>
      if c == quoteChar then .ok (trimRightSpaces acc, s.length)
      else .error "fitsio: string ends prematurely"
    | none => .error "fitsio: string ends prematurely"

/-- Digits of a decimal literal as a number, `none` when empty or
non-digit. -/
def digitsToNat : List Char → Option Nat
  | [] => none
  | l =>
    if l.all (fun c => c.isDigit) then
      some (l.foldl (fun acc c => acc * 10 + (c.toNat - 48)) 0)
    else none

/-- Model of `strconv.ParseInt(s, 10, 64)` syntax: optional sign then
decimal digits; the 64-bit range check is applied by the caller. -/
def parseIntDec (l : List Char) : Option Int :=
  match l with
  | c :: rest =>
    if c == '+' then (digitsToNat rest).map (fun n => (n : Int))
    else if c == '-' then (digitsToNat rest).map (fun n => -(n : Int))
    else (digitsToNat l).map (fun n => (n : Int))
  | [] => none

/-- Value model of `strconv.ParseFloat(s, 64)` on the decimal forms the
header codec meets: optional sign, digits with an optional fraction part,
optional `e`/`E` exponent.  The result is the exact rational the literal
denotes; only its type (float64) matters for the normalisation claims. -/
def parseFloatQ (l : List Char) : Option Rat :=
  let sp : Int × List Char :=
    match l with
    | c :: rest => if c == '+' then (1, rest) else if c == '-' then (-1, rest) else (1, l)
    | [] => (1, l)
  let sign := sp.1
  let mkMant : List Char → Option Rat := fun mant =>
    match mant.splitOnP (fun c => c == '.') with
    | [ip] => (digitsToNat ip).map (fun n => ((sign * n : Int) : Rat))
    | [ip, fp] =>
      if ip.isEmpty && fp.isEmpty then none
      else if (ip.isEmpty || (digitsToNat ip).isSome) &&
          (fp.isEmpty || (digitsToNat fp).isSome) then
        (digitsToNat (ip ++ fp)).map
          (fun n => ((sign * n : Int) : Rat) / ((10 : Rat) ^ fp.length))
      else none
    | _ => none
  let mkExp : List Char → Option Int := fun ex =>
    match ex with
    | c :: rest =>
      if c == '+' then (digitsToNat rest).map (fun n => (n : Int))
      else if c == '-' then (digitsToNat rest).map (fun n => -(n : Int))
      else (digitsToNat ex).map (fun n => (n : Int))
    | [] => none
  match sp.2.splitOnP (fun c => c == 'e' || c == 'E') with
  | [mant] => mkMant mant
  | [mant, ex] => do
    let q ← mkMant mant
    let e ← mkExp ex
    pure (q * (10 : Rat) ^ e)
  | _ => none

/-- Predicate for the normalised value forms of the header container:
undefined, bool, Go int, big-int, float64, complex128 or string. -/
def isNormalized : CardValue → Bool
  | .nil => true
  | .bool _ => true
  | .int _ => true
  | .bigInt _ => true
  | .f64 _ => true
  | .c128 _ _ => true
  | .str _ => true
  | _ => false

/-- Trim of ASCII spaces on both sides, as `strings.TrimSpace` on header
line content. -/
def trimSpaces (l : List Char) : List Char :=
  trimRightSpaces (l.dropWhile (fun c => c == ' '))

/-- Position of the first occurrence of the two-byte pattern
`space slash` (the `bytes.Index(, " /")` end-of-token search of
`parseHeaderLine`). -/
def idxSpaceSlash : List Char → Nat → Option Nat
  | c1 :: c2 :: rest, i =>
    if c1 == ' ' && c2 == '/' then some i else idxSpaceSlash (c2 :: rest) (i + 1)
  | _, _ => none

/-- Replacement of the first `D` by `E` (`strings.Replace(v, "D", "E", 1)`),
the FITS `D`-exponent tolerance of the float branch. -/
def replaceFirstD : List Char → List Char
  | [] => []
  | c :: rest => if c == 'D' then 'E' :: rest else c :: replaceFirstD rest

/-- Embedding of the value branch of `parseHeaderLine` (header line
codec), over the 70-byte value/comment region that follows the `= `
indicator of a normal keyword card: blanks only or a leading slash mean an
undefined value; a quote starts a string (truncated to 70 characters); a
parenthesis starts a complex value; a digit or sign starts a float (if the
token contains `.`, `D` or `E`) or an integer, which becomes a big-int
exactly when it overflows the signed 64-bit range, and - as in the source,
where only `strconv.ErrRange` is handled - is silently left undefined on a
syntax error; `T`/`F` are the logicals; anything else is a malformed
card. -/
def parseStrVal (r : List Char) : Except String CardValue :=
  match processString r with
  | .error e => .error e
  | .ok (s, _) =>
    if s.length ≤ 69 then .ok (.str (String.mk s))
    else .ok (.str (String.mk (s.take 70)))

def parseCplxVal (r : List Char) : Except String CardValue :=
  match r.findIdx? (fun c => c == ')') with
  | none => .error "fitsio: complex keyword missing closing parenthesis"
  | some idx =>
    let str := trimSpaces (r.take (idx + 1))
    let inner := (str.drop 1).dropLast
    match inner.splitOnP (fun c => c == ',') with
    | [a, b] =>
      match parseFloatQ (trimSpaces a), parseFloatQ (trimSpaces b) with
      | some x, some y => .ok (.c128 x y)
      | _, _ => .error "fitsio: invalid complex value"
    | _ => .error "fitsio: invalid complex value"

def parseNumVal (value : List Char) : Except String CardValue :=
  if value.any (fun c => c == '.' || c == 'D' || c == 'E') then
    match parseFloatQ (replaceFirstD value) with
    | some q => .ok (.f64 q)
    | none => .error "fitsio: invalid float value"
  else
    match parseIntDec value with
    | some x =>
      if decide (-(2 ^ 63) ≤ x) && decide (x ≤ 2 ^ 63 - 1) then .ok (.int x)
      else .ok (.bigInt x)
    | none => .ok .nil

def parseValueBody : List Char → Except String CardValue
  | [] => .ok .nil
  | r@(v0 :: _) =>
      if v0 == '/' then .ok .nil
      else if v0 == quoteChar then parseStrVal r
      else if v0 == '(' then parseCplxVal r
      else
        let token :=
          match idxSpaceSlash r 0 with
          | none => r
          | some k => r.take k
        if v0.isDigit || v0 == '+' || v0 == '-' then parseNumVal (trimSpaces token)
        else if v0 == 'T' then .ok (.bool true)
        else if v0 == 'F' then .ok (.bool false)
        else .error "fitsio: invalid card line"

def parseValue (l : List Char) : Except String CardValue :=
  let nblanks := (l.takeWhile (fun c => c == ' ')).length
  if nblanks == l.length then .ok .nil
  else parseValueBody (l.drop nblanks)

theorem padBlock_eq_zero {n : Nat} (h : n % blockSize = 0) : padBlock n = 0 := by
  simp [padBlock, h]

theorem alignBlock_mod (n : Nat) : alignBlock n % blockSize = 0 := by
  have h : n % blockSize < blockSize := Nat.mod_lt _ (by simp [blockSize])
  simp only [alignBlock, padBlock, blockSize] at h ⊢
  omega

theorem alignBlock_fixed {n : Nat} (h : alignBlock n = n) : n % blockSize = 0 := by
  have := alignBlock_mod n
  rw [h] at this
  exact this

theorem runNext_closed (m : Nat) (r : RowsState) (h : r.closed = true) :
    runNext r m = (List.replicate m false, r) := by
  induction m with
  | zero => simp [runNext]
  | succ m ih => simp [runNext, rowsNext, h, ih, List.replicate_succ]

theorem runNext_open (m : Nat) :
    ∀ (i n cur : Int),
      (runNext ⟨i, n, 1, cur, false, none⟩ m).1 =
        List.replicate (min m (n - i).toNat) true ++
          List.replicate (m - (n - i).toNat) false ∧
      (runNext ⟨i, n, 1, cur, false, none⟩ m).2.err = none := by
  induction m with
  | zero =>
    intro i n cur
    simp [runNext]
  | succ m ih =>
    intro i n cur
    by_cases hlt : i < n
    · have hrec := ih (i + 1) n (cur + 1)
      have hmin : min (m + 1) ((n - i).toNat) = min m ((n - (i + 1)).toNat) + 1 := by omega
      have hsub : (m + 1) - (n - i).toNat = m - (n - (i + 1)).toNat := by omega
      have hstep : runNext ⟨i, n, 1, cur, false, none⟩ (m + 1) =
          ((true :: (runNext ⟨i + 1, n, 1, cur + 1, false, none⟩ m).1),
            (runNext ⟨i + 1, n, 1, cur + 1, false, none⟩ m).2) := by
        simp [runNext, rowsNext, hlt]
      rw [hstep, hmin, hsub, List.replicate_succ]
      exact ⟨by rw [hrec.1]; simp, hrec.2⟩
    · have hk : (n - i).toNat = 0 := by omega
      have hstep : runNext ⟨i, n, 1, cur, false, none⟩ (m + 1) =
          ((false :: (runNext ⟨i + 1, n, 1, cur + 1, true, none⟩ m).1),
            (runNext ⟨i + 1, n, 1, cur + 1, true, none⟩ m).2) := by
        simp [runNext, rowsNext, hlt, rowsClose]
      rw [hstep, runNext_closed m _ rfl]
      simp [hk, List.replicate_succ]

/-- C2: for a table with `num_rows` rows, the cursor returned by
`Table.Read a b` answers `Next` with true exactly
`max 0 (min b num_rows - max 0 a)` times (written with `Int.toNat`, which
clamps the difference at zero): any sequence of `m` consecutive `Next`
calls yields that many trues followed by falses only, and the latched
error after natural exhaustion (and at every earlier point) is nil. -/
theorem tableRead_cursor_spec (nrows a b : Int) (m : Nat) :
    (runNext (tableRead nrows a b) m).1 =
      List.replicate (min m (min b nrows - max a 0).toNat) true ++
        List.replicate (m - (min b nrows - max a 0).toNat) false ∧
    (runNext (tableRead nrows a b) m).2.err = none := by
  have ht : tableRead nrows a b =
      ⟨max a 0, min b nrows, 1, max a 0 - 1, false, none⟩ := by
    simp only [tableRead, tableReadRange]
    split_ifs <;> simp_all [RowsState.mk.injEq] <;> omega
  rw [ht]
  exact runNext_open m (max a 0) (min b nrows) (max a 0 - 1)

theorem fileCloseLoop_hdus (againErr : Option String) (st : FileState) (n : Nat) :
    fileCloseLoop againErr st (List.replicate n .hduC) = (none, st) := by
  induction n with
  | zero => rfl
  | succ n ih => simp [List.replicate_succ, fileCloseLoop, closeOne, ih]

/-- C4 counterexample: for a file opened over a byte source that
implements `io.Closer` (here with one decoded HDU), `File.Close` closes
the underlying source - `Open` registers it in `f.closers` and `Close`
calls `Close` on every entry - refuting the claim that `Close` does not
close the underlying byte source/sink. -/
theorem fileClose_closes_source :
    (openFile true 1).srcClosed = false ∧
    (fileClose none (openFile true 1)).1 = none ∧
    (fileClose none (openFile true 1)).2.srcClosed = true := by
  decide

/-- C4 amended: `File.Close` calls `Close` on every registered closer in
order, including the underlying byte source/sink whenever it implements
`io.Closer` (so the underlying stream IS closed by `Close`); the first
`Close` returns nil.  A second `Close` re-invokes `Close` on every
closer: when the stream was not registered (not an `io.Closer`) `Close`
is idempotent and always returns nil; when it was, the second call
returns whatever the external stream's repeated `Close` returns
(nil again only for tolerant closers). -/
theorem fileClose_spec (againErr : Option String) (n : Nat) :
    (fileClose againErr (openFile true n)).1 = none ∧
    (fileClose againErr (openFile true n)).2.srcClosed = true ∧
    (fileClose againErr (openFile false n)) = (none, openFile false n) ∧
    fileClose againErr ((fileClose againErr (openFile false n)).2) =
      (none, openFile false n) ∧
    (fileClose none ((fileClose none (openFile true n)).2)).1 = none ∧
    (fileClose none ((fileClose none (openFile true n)).2)).2 =
      (fileClose none (openFile true n)).2 := by
  have h1 : fileClose againErr (openFile true n) =
      (none, { closers := (openFile true n).closers, srcClosed := true }) := by
    simp [fileClose, openFile, fileCloseLoop, closeOne, fileCloseLoop_hdus]
  have h2 : fileClose againErr (openFile false n) = (none, openFile false n) := by
    simp [fileClose, openFile, fileCloseLoop_hdus]
  have h1n : fileClose none (openFile true n) =
      (none, { closers := (openFile true n).closers, srcClosed := true }) := by
    simp [fileClose, openFile, fileCloseLoop, closeOne, fileCloseLoop_hdus]
  refine ⟨by rw [h1], by rw [h1], h2, by rw [h2]; exact h2, ?_, ?_⟩
  · rw [h1n]
    simp [fileClose, openFile, fileCloseLoop, closeOne, fileCloseLoop_hdus]
  · rw [h1n]
    simp [fileClose, openFile, fileCloseLoop, closeOne, fileCloseLoop_hdus]

/-- C1: the repository's own `TestImageCubeRoundTrip` writes a
`BITPIX = 16` image with axes `[2, 3, 6]` and expects to read it back,
but `NewHeader` materialises only `NAXIS1` and `NAXIS2` - never `NAXIS3`
- so the header card stream emitted for this cube (`SIMPLE`, `BITPIX`,
`NAXIS = 3`, `NAXIS1`, `NAXIS2`, `END`) is rejected by the decoder's
mandatory-axes lookup, and the image round trip claimed for every axes
list fails for every axes list of length three or more. -/
theorem imageCube_decode_fails :
    decodeHeaderCards imageCubeEmittedCards =
      .error "fitsio: missing NAXIS3 key" ∧
    (match newImageHeader 16 [2, 3, 6] with
     | .ok h => (h.Get "NAXIS").map (fun c => c.value) = some (.int 3) ∧
         h.Get "NAXIS3" = none
     | .error _ => False) := by
  constructor
  · rfl
  · constructor <;> rfl

/-- C8: `Header.Append` builds its duplicate-detection key set once, from
the cards present before the call, and never extends it while looping: a
single call given two cards with the same fresh non-free-form name
succeeds and stores both (normalised) cards, while the same two cards
appended in two separate calls make the second call fail with the
duplicate-Card error and leave the header unchanged. -/
theorem append_batch_duplicates (hdr : Header) (c1 c2 : Card)
    (hname : c2.name = c1.name)
    (hmem : (hdr.cards.map (fun c => c.name)).contains c1.name = false)
    (hff : freeFormName c1.name = false) (hend : (c1.name == "END") = false) :
    hdr.Append [c1, c2] =
      ({ hdr with cards := hdr.cards ++
          [{ c1 with value := normalizeAppend c1.value },
           { c2 with value := normalizeAppend c2.value }] }, none) ∧
    (hdr.Append [c1]).2 = none ∧
    ((hdr.Append [c1]).1.Append [c2]).2 =
      some ("fitsio: duplicate Card [" ++ c2.name ++ "]") ∧
    ((hdr.Append [c1]).1.Append [c2]).1 = (hdr.Append [c1]).1 := by
  have hmem2 : (hdr.cards.map (fun c => c.name)).contains c2.name = false := by
    rw [hname]; exact hmem
  have hff2 : freeFormName c2.name = false := by rw [hname]; exact hff
  have hend2 : (c2.name == "END") = false := by rw [hname]; exact hend
  have h1 : hdr.Append [c1] =
      ({ hdr with cards := hdr.cards ++ [{ c1 with value := normalizeAppend c1.value }] },
        none) := by
    simp only [Header.Append, appendLoop, hmem, Bool.false_eq_true, if_false]
  have hbatch : hdr.Append [c1, c2] =
      ({ hdr with cards := hdr.cards ++
          [{ c1 with value := normalizeAppend c1.value },
           { c2 with value := normalizeAppend c2.value }] }, none) := by
    simp only [Header.Append, appendLoop, hmem, hmem2, Bool.false_eq_true, if_false]
    simp [List.append_assoc]
  have hc2 : (((hdr.cards ++ [{ c1 with value := normalizeAppend c1.value }]).map
      (fun c : Card => c.name)).contains c2.name) = true := by
    simp [hname]
  have h2 : ({ hdr with cards :=
        hdr.cards ++ [{ c1 with value := normalizeAppend c1.value }] } : Header).Append [c2] =
      ({ hdr with cards := hdr.cards ++ [{ c1 with value := normalizeAppend c1.value }] },
        some ("fitsio: duplicate Card [" ++ c2.name ++ "]")) := by
    simp only [Header.Append, appendLoop]
    rw [if_pos hc2, if_neg (by simp [hff2]), if_neg (by simp [hend2])]
  refine ⟨hbatch, by rw [h1], ?_, ?_⟩
  · rw [h1, h2]
  · rw [h1, h2]

/-- C8 witness at a concrete header and two concrete FOO cards. -/
theorem append_batch_duplicates_witness :
    (("FOO" : String) = "FOO" ∧
      ((⟨.IMAGE_HDU, 8, [], []⟩ : Header).cards.map (fun c => c.name)).contains "FOO" = false ∧
      freeFormName "FOO" = false ∧ (("FOO" : String) == "END") = false) ∧
    ((⟨.IMAGE_HDU, 8, [], []⟩ : Header).Append [⟨"FOO", .i16 1, "a"⟩, ⟨"FOO", .int 2, "b"⟩] =
      ({ (⟨.IMAGE_HDU, 8, [], []⟩ : Header) with cards :=
          (⟨.IMAGE_HDU, 8, [], []⟩ : Header).cards ++
            [{ (⟨"FOO", .i16 1, "a"⟩ : Card) with
                value := normalizeAppend (⟨"FOO", .i16 1, "a"⟩ : Card).value },
             { (⟨"FOO", .int 2, "b"⟩ : Card) with
                value := normalizeAppend (⟨"FOO", .int 2, "b"⟩ : Card).value }] }, none) ∧
      ((⟨.IMAGE_HDU, 8, [], []⟩ : Header).Append [⟨"FOO", .i16 1, "a"⟩]).2 = none ∧
      (((⟨.IMAGE_HDU, 8, [], []⟩ : Header).Append [⟨"FOO", .i16 1, "a"⟩]).1.Append
          [⟨"FOO", .int 2, "b"⟩]).2 =
        some ("fitsio: duplicate Card [" ++ ("FOO" : String) ++ "]") ∧
      (((⟨.IMAGE_HDU, 8, [], []⟩ : Header).Append [⟨"FOO", .i16 1, "a"⟩]).1.Append
          [⟨"FOO", .int 2, "b"⟩]).1 =
        ((⟨.IMAGE_HDU, 8, [], []⟩ : Header).Append [⟨"FOO", .i16 1, "a"⟩]).1) :=
  ⟨⟨rfl, by decide, by decide, by decide⟩,
    append_batch_duplicates ⟨.IMAGE_HDU, 8, [], []⟩ ⟨"FOO", .i16 1, "a"⟩ ⟨"FOO", .int 2, "b"⟩
      rfl (by decide) (by decide) (by decide)⟩

theorem get_updateFirst (n : String) (v : CardValue) (cm : String) :
    ∀ (cards : List Card) (c : Card),
      cards.find? (fun k => k.name == n) = some c →
        (updateFirst n v cm cards).find? (fun k => k.name == n) = some ⟨c.name, v, cm⟩ := by
  intro cards
  induction cards with
  | nil => intro c h; simp [List.find?] at h
  | cons hd tl ih =>
    intro c h
    by_cases hn : hd.name == n
    · rw [List.find?] at h
      simp only [hn] at h
      cases h
      simp [updateFirst, hn, List.find?]
    · rw [List.find?] at h
      simp only [hn] at h
      simp only [updateFirst, hn, if_false, Bool.false_eq_true]
      rw [List.find?]
      simp only [hn]
      exact ih c (by simpa using h)

/-- C9: `Header.Set` on an existing name overwrites the first matching
card's value and comment verbatim - bypassing the numeric normalisation
`Append`/`prepend` apply - while on an absent name it goes through
`Append` (whose result is normalised, and whose error is dropped); the
closed third part exhibits a header whose value-normalisation invariant
is broken by `Set` storing a raw float32. -/
theorem header_set_spec (hdr : Header) (n : String) (v : CardValue) (cm : String) :
    (∀ c, hdr.Get n = some c →
      hdr.Set n v cm = { hdr with cards := updateFirst n v cm hdr.cards } ∧
      (hdr.Set n v cm).Get n = some ⟨c.name, v, cm⟩) ∧
    (hdr.Get n = none →
      hdr.Set n v cm = (hdr.Append [⟨n, v, cm⟩]).1) ∧
    ((((⟨.IMAGE_HDU, 8, [], []⟩ : Header).Append [⟨"A", .int 1, ""⟩]).1.Set "A"
        (.f32 1) "x").Get "A" = some ⟨"A", .f32 1, "x"⟩ ∧
      isNormalized (.f32 1) = false) := by
  refine ⟨?_, ?_, by decide⟩
  · intro c hget
    have hset : hdr.Set n v cm = { hdr with cards := updateFirst n v cm hdr.cards } := by
      simp [Header.Set, hget]
    exact ⟨hset, by rw [hset]; exact get_updateFirst n v cm hdr.cards c hget⟩
  · intro hget
    simp [Header.Set, hget]

/-- C9 witness at a concrete header holding a FOO card. -/
theorem header_set_spec_witness :
    (((⟨.IMAGE_HDU, 8, [], []⟩ : Header).Append [⟨"FOO", .int 7, "c"⟩]).1.Get "FOO" =
        some ⟨"FOO", .int 7, "c"⟩) ∧
    (((⟨.IMAGE_HDU, 8, [], []⟩ : Header).Append [⟨"FOO", .int 7, "c"⟩]).1.Set "FOO"
        (.u8 300) "d" =
      { ((⟨.IMAGE_HDU, 8, [], []⟩ : Header).Append [⟨"FOO", .int 7, "c"⟩]).1 with
          cards := updateFirst "FOO" (.u8 300) "d"
            ((⟨.IMAGE_HDU, 8, [], []⟩ : Header).Append [⟨"FOO", .int 7, "c"⟩]).1.cards } ∧
      (((⟨.IMAGE_HDU, 8, [], []⟩ : Header).Append [⟨"FOO", .int 7, "c"⟩]).1.Set "FOO"
          (.u8 300) "d").Get "FOO" = some ⟨"FOO", .u8 300, "d"⟩) :=
  ⟨by decide,
    (header_set_spec ((⟨.IMAGE_HDU, 8, [], []⟩ : Header).Append [⟨"FOO", .int 7, "c"⟩]).1
      "FOO" (.u8 300) "d").1 ⟨"FOO", .int 7, "c"⟩ (by decide)⟩


theorem writeBin_string_spec (t : TableM) (col : ColumnM) (irow : Nat) (s : String)
    (h : t.rowsz * irow + col.offset + col.dsize ≤ t.data.length) :
    colWriteBin t col irow (.str s) =
      ({ t with data :=
          t.data.take (t.rowsz * irow + col.offset) ++
            (0 :: (sbytes s ++ List.replicate col.dsize 0)).take col.dsize ++
            t.data.drop (t.rowsz * irow + col.offset + col.dsize) }, none) := by
  simp only [colWriteBin, List.length_cons]
  rcases Nat.lt_trichotomy ((sbytes s).length + 1) col.dsize with h1 | h1 | h1
  · have hgt : ¬ ((sbytes s).length + 1 > col.dsize) := by omega
    rw [if_neg hgt, if_pos h1, if_pos h1]
    have hd1 : ((0 :: sbytes s) ++ List.replicate (col.dsize - ((sbytes s).length + 1)) 0).length
        = col.dsize := by
      simp; omega
    rw [List.take_length]
    have hq : (0 :: (sbytes s ++ List.replicate col.dsize 0)).take col.dsize
        = (0 :: sbytes s) ++ List.replicate (col.dsize - ((sbytes s).length + 1)) 0 := by
      rw [show ((0 : Nat) :: (sbytes s ++ List.replicate col.dsize 0))
          = (0 :: sbytes s) ++ List.replicate col.dsize 0 from rfl]
      rw [List.take_append_eq_append_take,
        List.take_of_length_le (by simp; omega), List.take_replicate]
      congr 2
      simp only [List.length_cons]
      omega
    rw [hq]
    simp only [sectionWrite, hd1, min_self, lt_self_iff_false, if_false]
    rw [List.take_of_length_le (le_of_eq hd1)]
  · have hgt : ¬ ((sbytes s).length + 1 > col.dsize) := by omega
    have hlt : ¬ ((sbytes s).length + 1 < col.dsize) := by omega
    rw [if_neg hgt, if_neg hlt, if_neg hlt]
    rw [show (0 :: sbytes s).take ((sbytes s).length + 1) = 0 :: sbytes s from
      List.take_of_length_le (by simp)]
    have hq : (0 :: (sbytes s ++ List.replicate col.dsize 0)).take col.dsize
        = 0 :: sbytes s := by
      rw [show ((0 : Nat) :: (sbytes s ++ List.replicate col.dsize 0))
          = (0 :: sbytes s) ++ List.replicate col.dsize 0 from rfl]
      rw [List.take_append_eq_append_take,
        List.take_of_length_le (by simp; omega)]
      simp
      omega
    rw [hq]
    have hplen : (0 :: sbytes s : List Nat).length = col.dsize := by simp; omega
    simp only [sectionWrite, hplen, min_self, lt_self_iff_false, if_false]
    rw [List.take_of_length_le (le_of_eq hplen)]
  · have hgt : (sbytes s).length + 1 > col.dsize := by omega
    rw [if_pos hgt, if_neg (lt_irrefl col.dsize), if_neg (lt_irrefl col.dsize)]
    have hq : (0 :: (sbytes s ++ List.replicate col.dsize 0)).take col.dsize
        = (0 :: sbytes s).take col.dsize := by
      rw [show ((0 : Nat) :: (sbytes s ++ List.replicate col.dsize 0))
          = (0 :: sbytes s) ++ List.replicate col.dsize 0 from rfl]
      rw [List.take_append_eq_append_take]
      rw [show col.dsize - (0 :: sbytes s : List Nat).length = 0 by simp; omega]
      simp
    rw [hq]
    have hplen : ((0 :: sbytes s : List Nat).take col.dsize).length = col.dsize := by
      rw [List.length_take]; simp; omega
    simp only [sectionWrite, hplen, min_self, lt_self_iff_false, if_false]
    rw [List.take_take, min_self]

/-- C6 witness: a six-character string written into a four-byte column. -/
theorem writeBin_string_spec_witness :
    ((⟨List.replicate 10 9, [], 10, 0, [10, 0], []⟩ : TableM).rowsz * 0 +
        (⟨2, 4, 1, 0⟩ : ColumnM).offset + (⟨2, 4, 1, 0⟩ : ColumnM).dsize ≤
      (⟨List.replicate 10 9, [], 10, 0, [10, 0], []⟩ : TableM).data.length) ∧
    colWriteBin ⟨List.replicate 10 9, [], 10, 0, [10, 0], []⟩ ⟨2, 4, 1, 0⟩ 0 (.str "abcdef") =
      ({ (⟨List.replicate 10 9, [], 10, 0, [10, 0], []⟩ : TableM) with
          data := List.take (10 * 0 + 2) (List.replicate 10 9) ++
            List.take 4 (0 :: (sbytes "abcdef" ++ List.replicate 4 0)) ++
            List.drop (10 * 0 + 2 + 4) (List.replicate 10 9) }, none) :=
  ⟨by decide,
    writeBin_string_spec ⟨List.replicate 10 9, [], 10, 0, [10, 0], []⟩ ⟨2, 4, 1, 0⟩ 0
      "abcdef" (by decide)⟩

theorem sectionWrite_length (tdata : List Nat) (beg width : Nat) (p : List Nat)
    (h : beg + width ≤ tdata.length) :
    (sectionWrite tdata beg width p).2.length = tdata.length := by
  simp only [sectionWrite]
  split <;>
    simp only [List.length_append, List.length_take, List.length_drop] <;> omega

theorem sectionWrite_ok (tdata : List Nat) (beg width : Nat) (p : List Nat)
    (hp : p.length ≤ width) :
    sectionWrite tdata beg width p =
      ((p.length, none), tdata.take beg ++ p ++ tdata.drop (beg + p.length)) := by
  simp only [sectionWrite, min_eq_left hp, List.take_length, lt_self_iff_false, if_false]

theorem take_heap_append (l ext : List Nat) : (l ++ ext).take l.length = l := by
  rw [List.take_append_eq_append_take, List.take_length, Nat.sub_self]
  simp

theorem colWriteBin_frame (t : TableM) (col : ColumnM) (irow : Nat) (cell : Cell)
    (h : t.rowsz * irow + col.offset + col.dsize ≤ t.data.length) :
    (colWriteBin t col irow cell).1.data.length = t.data.length ∧
    (colWriteBin t col irow cell).1.heap.take t.heap.length = t.heap ∧
    (colWriteBin t col irow cell).1.rowsz = t.rowsz ∧
    (colWriteBin t col irow cell).1.nrows = t.nrows ∧
    (colWriteBin t col irow cell).1.axes = t.axes ∧
    (colWriteBin t col irow cell).1.cols = t.cols := by
  cases cell with
  | i16 v =>
    simp only [colWriteBin]
    exact ⟨sectionWrite_length t.data _ _ _ (by omega), by simp [List.take_length],
      trivial, trivial, trivial, trivial⟩
  | str s =>
    simp only [colWriteBin]
    exact ⟨sectionWrite_length t.data _ _ _ (by omega), by simp [List.take_length],
      trivial, trivial, trivial, trivial⟩
  | unsupported =>
    simp only [colWriteBin]
    exact ⟨by simp, by simp [List.take_length], trivial, trivial, trivial, trivial⟩
  | sliceI16 xs =>
    simp only [colWriteBin]
    by_cases h8 : (col.dsize == 8) = true
    · have h8e : col.dsize = 8 := by simpa using h8
      have hsw := sectionWrite_ok t.data (t.rowsz * irow + col.offset) col.dsize
        (be32 (xs.length : Int) ++ be32 (t.heap.length : Int)) (by simp [be32, h8e])
      simp only [h8, if_true, hsw]
      refine ⟨?_, take_heap_append _ _, trivial, trivial, trivial, trivial⟩
      simp only [List.length_append, List.length_take, List.length_drop, be32]
      simp only [List.length_cons, List.length_nil]
      omega
    · simp only [h8, Bool.false_eq_true, if_false]
      by_cases h16 : (col.dsize == 16) = true
      · have h16e : col.dsize = 16 := by simpa using h16
        have hsw := sectionWrite_ok t.data (t.rowsz * irow + col.offset) col.dsize
          (be64 (xs.length : Int) ++ be64 (t.heap.length : Int)) (by simp [be64, h16e])
        simp only [h16, if_true, hsw]
        refine ⟨?_, take_heap_append _ _, trivial, trivial, trivial, trivial⟩
        simp only [List.length_append, List.length_take, List.length_drop, be64]
        simp only [List.length_cons, List.length_nil]
        omega
      · simp only [h16, Bool.false_eq_true, if_false]
        exact ⟨by simp, take_heap_append _ _, trivial, trivial, trivial, trivial⟩

theorem writeColsLoop_frame (irow : Nat) :
    ∀ (cols : List ColumnM) (args : List Cell) (t : TableM),
      (∀ c ∈ cols, c.offset + c.dsize ≤ t.rowsz) →
      t.rowsz * irow + t.rowsz ≤ t.data.length →
      (writeColsLoop irow t cols args).1.data.length = t.data.length ∧
      (writeColsLoop irow t cols args).1.heap.take t.heap.length = t.heap ∧
      (writeColsLoop irow t cols args).1.rowsz = t.rowsz ∧
      (writeColsLoop irow t cols args).1.nrows = t.nrows ∧
      (writeColsLoop irow t cols args).1.axes = t.axes := by
  intro cols
  induction cols with
  | nil =>
    intro args t _ _
    simp [writeColsLoop, List.take_length]
  | cons c cs ih =>
    intro args t h1 h2
    cases args with
    | nil => simp [writeColsLoop, List.take_length]
    | cons a rest =>
      have hrange : t.rowsz * irow + c.offset + c.dsize ≤ t.data.length := by
        have hc := h1 c (by simp)
        omega
      have hf := colWriteBin_frame t c irow a hrange
      rcases hw : colWriteBin t c irow a with ⟨t2, err⟩
      rw [hw] at hf
      simp only at hf
      have hheaplen : t.heap.length ≤ t2.heap.length := by
        have := congrArg List.length hf.2.1
        rw [List.length_take] at this
        omega
      cases err with
      | some e =>
        simp only [writeColsLoop, hw]
        exact ⟨hf.1, hf.2.1, hf.2.2.1, hf.2.2.2.1, hf.2.2.2.2.1⟩
      | none =>
        have hrec := ih rest t2 (by
          intro c2 hc2
          rw [hf.2.2.1]
          exact h1 c2 (by simp [hc2]))
          (by rw [hf.2.2.1, hf.1]; exact h2)
        simp only [writeColsLoop, hw]
        refine ⟨by rw [hrec.1, hf.1], ?_, by rw [hrec.2.2.1, hf.2.2.1],
          by rw [hrec.2.2.2.1, hf.2.2.2.1], by rw [hrec.2.2.2.2, hf.2.2.2.2.1]⟩
        have hk : (writeColsLoop irow t2 cs rest).1.heap.take t2.heap.length = t2.heap :=
          hrec.2.1
        calc (writeColsLoop irow t2 cs rest).1.heap.take t.heap.length
            = ((writeColsLoop irow t2 cs rest).1.heap.take t2.heap.length).take
                t.heap.length := by
              rw [List.take_take, min_eq_left hheaplen]
          _ = t2.heap.take t.heap.length := by rw [hk]
          _ = t.heap := hf.2.1

/-- C10: `Table.Write` extends the data buffer by one zeroed row before
invoking the per-column writers; the row count and the `NAXIS2` axis are
incremented only if every column writer succeeds, while on any error -
wrong argument count or a failing column writer - the already-extended
data buffer and any heap bytes appended by earlier variable-length-array
column writes are kept (the original heap stays a prefix and nothing is
rolled back), with the row count and axes unchanged. -/
theorem tableWrite_spec (t : TableM) (args : List Cell)
    (hcols : ∀ c ∈ t.cols, c.offset + c.dsize ≤ t.rowsz)
    (hdata : t.data.length = t.rowsz * t.nrows) :
    ((TableWrite t args).2.isSome = true →
      (TableWrite t args).1.data.length = t.data.length + t.rowsz ∧
      (TableWrite t args).1.nrows = t.nrows ∧
      (TableWrite t args).1.axes = t.axes ∧
      (TableWrite t args).1.heap.take t.heap.length = t.heap) ∧
    ((TableWrite t args).2 = none →
      (TableWrite t args).1.nrows = t.nrows + 1 ∧
      (TableWrite t args).1.axes = t.axes.set 1 (t.axes.getD 1 0 + 1) ∧
      (TableWrite t args).1.data.length = t.data.length + t.rowsz ∧
      (TableWrite t args).1.heap.take t.heap.length = t.heap) := by
  cases args with
  | nil =>
    constructor
    · intro _
      simp [TableWrite, List.take_length]
    · intro hnone
      simp [TableWrite] at hnone
  | cons a rest =>
    by_cases hlen : ((a :: rest).length != t.cols.length) = true
    · constructor
      · intro _
        simp only [TableWrite, hlen, if_true]
        simp [List.take_length]
      · intro hnone
        simp only [TableWrite, hlen, if_true] at hnone
        exact Option.noConfusion hnone
    · have hloop := writeColsLoop_frame t.nrows t.cols (a :: rest)
        { t with data := t.data ++ List.replicate t.rowsz 0 }
        (by intro c hc; exact hcols c hc)
        (by simp only [List.length_append, List.length_replicate]; omega)
      rcases hw : writeColsLoop t.nrows
          { t with data := t.data ++ List.replicate t.rowsz 0 } t.cols (a :: rest)
        with ⟨t2, err⟩
      rw [hw] at hloop
      simp only at hloop
      have hdl : t2.data.length = t.data.length + t.rowsz := by
        have := hloop.1
        simp only [List.length_append, List.length_replicate] at this
        omega
      cases err with
      | some e =>
        constructor
        · intro _
          simp only [TableWrite, hlen, Bool.false_eq_true, if_false, hw]
          exact ⟨hdl, hloop.2.2.2.1, hloop.2.2.2.2, hloop.2.1⟩
        · intro hnone
          simp only [TableWrite, hlen, Bool.false_eq_true, if_false, hw] at hnone
          exact Option.noConfusion hnone
      | none =>
        constructor
        · intro hsome
          simp only [TableWrite, hlen, Bool.false_eq_true, if_false, hw] at hsome
          simp at hsome
        · intro _
          simp only [TableWrite, hlen, Bool.false_eq_true, if_false, hw]
          refine ⟨by rw [hloop.2.2.2.1], by rw [hloop.2.2.2.2], hdl, hloop.2.1⟩

/-- C10 witness: a two-column binary table (a 32-bit-descriptor
variable-length int16 column, then a column whose value kind the writer
rejects); the write fails, the data buffer stays extended by one row, the
heap keeps the bytes the first column appended, and the row count and
axes are unchanged. -/
theorem tableWrite_spec_witness :
    ((∀ c ∈ (⟨[], [], 10, 0, [10, 0], [⟨0, 8, 1, 2⟩, ⟨8, 2, 1, 0⟩]⟩ : TableM).cols,
        c.offset + c.dsize ≤ (⟨[], [], 10, 0, [10, 0], [⟨0, 8, 1, 2⟩, ⟨8, 2, 1, 0⟩]⟩ : TableM).rowsz) ∧
      (⟨[], [], 10, 0, [10, 0], [⟨0, 8, 1, 2⟩, ⟨8, 2, 1, 0⟩]⟩ : TableM).data.length =
        (⟨[], [], 10, 0, [10, 0], [⟨0, 8, 1, 2⟩, ⟨8, 2, 1, 0⟩]⟩ : TableM).rowsz *
          (⟨[], [], 10, 0, [10, 0], [⟨0, 8, 1, 2⟩, ⟨8, 2, 1, 0⟩]⟩ : TableM).nrows) ∧
    ((TableWrite ⟨[], [], 10, 0, [10, 0], [⟨0, 8, 1, 2⟩, ⟨8, 2, 1, 0⟩]⟩
        [.sliceI16 [1, 2, 3], .unsupported]).2.isSome = true →
      (TableWrite ⟨[], [], 10, 0, [10, 0], [⟨0, 8, 1, 2⟩, ⟨8, 2, 1, 0⟩]⟩
        [.sliceI16 [1, 2, 3], .unsupported]).1.data.length =
          (⟨[], [], 10, 0, [10, 0], [⟨0, 8, 1, 2⟩, ⟨8, 2, 1, 0⟩]⟩ : TableM).data.length + 10 ∧
      (TableWrite ⟨[], [], 10, 0, [10, 0], [⟨0, 8, 1, 2⟩, ⟨8, 2, 1, 0⟩]⟩
        [.sliceI16 [1, 2, 3], .unsupported]).1.nrows = 0 ∧
      (TableWrite ⟨[], [], 10, 0, [10, 0], [⟨0, 8, 1, 2⟩, ⟨8, 2, 1, 0⟩]⟩
        [.sliceI16 [1, 2, 3], .unsupported]).1.axes = [10, 0] ∧
      (TableWrite ⟨[], [], 10, 0, [10, 0], [⟨0, 8, 1, 2⟩, ⟨8, 2, 1, 0⟩]⟩
          [.sliceI16 [1, 2, 3], .unsupported]).1.heap.take
        ((⟨[], [], 10, 0, [10, 0], [⟨0, 8, 1, 2⟩, ⟨8, 2, 1, 0⟩]⟩ : TableM).heap.length) =
          (⟨[], [], 10, 0, [10, 0], [⟨0, 8, 1, 2⟩, ⟨8, 2, 1, 0⟩]⟩ : TableM).heap) ∧
    (TableWrite ⟨[], [], 10, 0, [10, 0], [⟨0, 8, 1, 2⟩, ⟨8, 2, 1, 0⟩]⟩
        [.sliceI16 [1, 2, 3], .unsupported]).2.isSome = true ∧
    (TableWrite ⟨[], [], 10, 0, [10, 0], [⟨0, 8, 1, 2⟩, ⟨8, 2, 1, 0⟩]⟩
        [.sliceI16 [1, 2, 3], .unsupported]).1.heap.length = 6 :=
  ⟨⟨by decide, by decide⟩,
    (tableWrite_spec ⟨[], [], 10, 0, [10, 0], [⟨0, 8, 1, 2⟩, ⟨8, 2, 1, 0⟩]⟩
      [.sliceI16 [1, 2, 3], .unsupported] (by decide) (by decide)).1,
    by decide, by decide⟩

theorem encodeHeader_ok_shape {fm : FloatFmt} {cards : List Card} {hb : List Nat}
    (h : encodeHeader fm cards = .ok hb) :
    hb.length % blockSize = 0 ∧
    ∃ hraw, hb = hraw ++ List.replicate (padBlock hraw.length) spaceByte := by
  cases hm : headerLines fm cards with
  | error e => simp [encodeHeader, hm] at h
  | ok lines =>
    cases he : makeHeaderLine fm ⟨"END", .nil, ""⟩ with
    | error e => simp [encodeHeader, hm, he] at h
    | ok endl =>
      simp only [encodeHeader, hm, he] at h
      set raw := sbytes (String.join lines ++ endl) with hraw
      by_cases hal : alignBlock (raw ++ List.replicate (padBlock raw.length) spaceByte).length ≠
          (raw ++ List.replicate (padBlock raw.length) spaceByte).length
      · rw [if_pos hal] at h
        cases h
      · rw [if_neg hal] at h
        cases h
        constructor
        · have hlen : (raw ++ List.replicate (padBlock raw.length) spaceByte).length =
              alignBlock raw.length := by
            simp [alignBlock, List.length_append, List.length_replicate]
          rw [hlen]
          exact alignBlock_mod _
        · exact ⟨raw, rfl⟩

/-- C5: whenever `EncodeHDU` succeeds, its output is a header block
followed by a payload block, each of length a multiple of 2880 (so the
whole emitted HDU, and hence any concatenation of emitted HDUs, has
length a multiple of 2880); the header block is padded with ASCII spaces
(0x20), an image payload is the raw pixels padded with zero bytes, and a
table payload is data plus heap padded with zero bytes for a binary table
and ASCII spaces (0x20) for an ASCII table. -/
theorem encodeHDU_alignment (fm : FloatFmt) (hdr : Header) (p : Payload) (out : List Nat)
    (h : EncodeHDU fm hdr p = .ok out) :
    out.length % 2880 = 0 ∧
    ∃ hb pb, out = hb ++ pb ∧ hb.length % 2880 = 0 ∧ pb.length % 2880 = 0 ∧
      (∃ hraw, hb = hraw ++ List.replicate (padBlock hraw.length) spaceByte) ∧
      (∀ raw, p = .image raw → pb = raw ++ List.replicate (padBlock raw.length) 0) ∧
      (∀ d hp b, p = .table d hp b →
        pb = d ++ hp ++ List.replicate (padBlock (d.length + hp.length))
          (if b then 0 else spaceByte)) := by
  cases hh : encodeHeader fm hdr.cards with
  | error e => simp [EncodeHDU, hh] at h
  | ok hb =>
    have hshape := encodeHeader_ok_shape hh
    have hbmod : hb.length % 2880 = 0 := by simpa [blockSize] using hshape.1
    have himg : ∀ raw : List Nat, (saveImage raw).length % 2880 = 0 := by
      intro raw
      have hl : (saveImage raw).length = alignBlock raw.length := by
        simp [saveImage, alignBlock, List.length_append, List.length_replicate]
      rw [hl]
      simpa [blockSize] using alignBlock_mod raw.length
    have htbl : ∀ (d hp : List Nat) (b : Bool),
        (saveTable d hp b).length % 2880 = 0 := by
      intro d hp b
      have hl : (saveTable d hp b).length = alignBlock (d.length + hp.length) := by
        simp [saveTable, alignBlock, List.length_append, List.length_replicate]
        omega
      rw [hl]
      simpa [blockSize] using alignBlock_mod (d.length + hp.length)
    cases htp : hdr.htype <;> cases p
    case IMAGE_HDU.image raw =>
      simp only [EncodeHDU, hh, htp] at h
      cases h
      refine ⟨?_, hb, saveImage raw, rfl, hbmod, himg raw, hshape.2, ?_, ?_⟩
      · have h2 := himg raw
        simp only [List.length_append]
        omega
      · intro raw2 hr
        cases hr
        rfl
      · intro d hp b hr
        cases hr
    case IMAGE_HDU.table d hp b =>
      simp [EncodeHDU, hh, htp] at h
    case ASCII_TBL.image raw =>
      simp [EncodeHDU, hh, htp] at h
    case ASCII_TBL.table d hp b =>
      simp only [EncodeHDU, hh, htp] at h
      cases h
      refine ⟨?_, hb, saveTable d hp b, rfl, hbmod, htbl d hp b, hshape.2, ?_, ?_⟩
      · have h2 := htbl d hp b
        simp only [List.length_append]
        omega
      · intro raw2 hr
        cases hr
      · intro d2 hp2 b2 hr
        cases hr
        rfl
    case BINARY_TBL.image raw =>
      simp [EncodeHDU, hh, htp] at h
    case BINARY_TBL.table d hp b =>
      simp only [EncodeHDU, hh, htp] at h
      cases h
      refine ⟨?_, hb, saveTable d hp b, rfl, hbmod, htbl d hp b, hshape.2, ?_, ?_⟩
      · have h2 := htbl d hp b
        simp only [List.length_append]
        omega
      · intro raw2 hr
        cases hr
      · intro d2 hp2 b2 hr
        cases hr
        rfl
    case ANY_HDU.image raw =>
      simp [EncodeHDU, hh, htp] at h
    case ANY_HDU.table d hp b =>
      simp [EncodeHDU, hh, htp] at h


/-- C5 witness: a 3x4 byte image under a card-less header (the encoder
still emits the END line and pads the header to one full block). -/
theorem encodeHDU_alignment_witness :
    ∃ out, EncodeHDU ⟨fun _ => "", fun _ => ""⟩
        ⟨.IMAGE_HDU, 8, [3, 4], []⟩ (.image (List.replicate 12 7)) = .ok out ∧
      (out.length % 2880 = 0 ∧
        ∃ hb pb, out = hb ++ pb ∧ hb.length % 2880 = 0 ∧ pb.length % 2880 = 0 ∧
          (∃ hraw, hb = hraw ++ List.replicate (padBlock hraw.length) spaceByte) ∧
          (∀ raw, (Payload.image (List.replicate 12 7) : Payload) = .image raw →
            pb = raw ++ List.replicate (padBlock raw.length) 0) ∧
          (∀ d hp b, (Payload.image (List.replicate 12 7) : Payload) = .table d hp b →
            pb = d ++ hp ++ List.replicate (padBlock (d.length + hp.length))
              (if b then 0 else spaceByte))) := by
  have hlines : headerLines ⟨fun _ => "", fun _ => ""⟩ [] = .ok [] := rfl
  have hend : makeHeaderLine ⟨fun _ => "", fun _ => ""⟩ ⟨"END", .nil, ""⟩
      = .ok (padR "END" 80) := rfl
  have hrawlen : (sbytes (String.join [] ++ padR "END" 80)).length = 80 := by decide
  have henc : encodeHeader ⟨fun _ => "", fun _ => ""⟩ [] =
      .ok (sbytes (String.join [] ++ padR "END" 80) ++
        List.replicate (padBlock 80) spaceByte) := by
    simp only [encodeHeader, hlines, hend, hrawlen]
    rw [if_neg]
    simp only [List.length_append, List.length_replicate, hrawlen]
    decide
  have hE : EncodeHDU ⟨fun _ => "", fun _ => ""⟩ ⟨.IMAGE_HDU, 8, [3, 4], []⟩
      (.image (List.replicate 12 7)) =
      .ok ((sbytes (String.join [] ++ padR "END" 80) ++
          List.replicate (padBlock 80) spaceByte) ++ saveImage (List.replicate 12 7)) := by
    simp only [EncodeHDU, henc]
  exact ⟨_, hE, encodeHDU_alignment ⟨fun _ => "", fun _ => ""⟩ ⟨.IMAGE_HDU, 8, [3, 4], []⟩
    (.image (List.replicate 12 7)) _ hE⟩

theorem normalizeAppend_normalized (v : CardValue) :
    isNormalized (normalizeAppend v) = true := by
  cases v <;> rfl

theorem parseStrVal_normalized (r : List Char) (v : CardValue)
    (h : parseStrVal r = .ok v) : isNormalized v = true := by
  cases hps : processString r with
  | error e =>
    simp only [parseStrVal, hps] at h
    exact Except.noConfusion h
  | ok pr =>
    obtain ⟨s, i⟩ := pr
    simp only [parseStrVal, hps] at h
    split at h <;> (cases h; rfl)

theorem parseCplxVal_normalized (r : List Char) (v : CardValue)
    (h : parseCplxVal r = .ok v) : isNormalized v = true := by
  simp only [parseCplxVal] at h
  repeat' split at h
  all_goals cases h <;> rfl

theorem parseNumVal_normalized (value : List Char) (v : CardValue)
    (h : parseNumVal value = .ok v) : isNormalized v = true := by
  simp only [parseNumVal] at h
  repeat' split at h
  all_goals cases h <;> rfl

theorem parseValueBody_normalized (r : List Char) (v : CardValue)
    (h : parseValueBody r = .ok v) : isNormalized v = true := by
  cases r with
  | nil =>
    cases h
    rfl
  | cons v0 rest =>
    simp only [parseValueBody] at h
    cases h1 : v0 == '/' <;> simp only [h1, Bool.false_eq_true, if_false, if_true] at h
    case true => cases h; rfl
    cases h2 : v0 == quoteChar <;> simp only [h2, Bool.false_eq_true, if_false, if_true] at h
    case true => exact parseStrVal_normalized _ v h
    cases h3 : v0 == '(' <;> simp only [h3, Bool.false_eq_true, if_false, if_true] at h
    case true => exact parseCplxVal_normalized _ v h
    cases h4 : v0.isDigit || v0 == '+' || v0 == '-' <;>
      simp only [h4, Bool.false_eq_true, if_false, if_true] at h
    case true => exact parseNumVal_normalized _ v h
    cases h5 : v0 == 'T' <;> simp only [h5, Bool.false_eq_true, if_false, if_true] at h
    case true => cases h; rfl
    cases h6 : v0 == 'F' <;> simp only [h6, Bool.false_eq_true, if_false, if_true] at h
    case true => cases h; rfl
    exact Except.noConfusion h

theorem parseValue_normalized (l : List Char) (v : CardValue)
    (h : parseValue l = .ok v) : isNormalized v = true := by
  simp only [parseValue] at h
  split at h
  · cases h
    rfl
  · exact parseValueBody_normalized _ v h

/-- C7 (amended): each card accepted by `Header.Append` or `Header.prepend`
is stored with its value normalised - every signed-integer type to the
64-bit `int`, every unsigned integer to 64-bit signed with two's-complement
wrap-around, float32 to float64, complex64 to complex128, with strings,
bools and (for `Append`) big-ints unchanged - EXCEPT that a duplicate
free-form card (COMMENT/HISTORY/blank name) is appended verbatim without
normalisation; and every value produced by the header-line value parser is
already in this normalised form, so decoding an emitted header yields
normalised values. -/
theorem headerAppend_normalisation :
    (∀ (hdr : Header) (c : Card),
      (hdr.cards.map (fun k => k.name)).contains c.name = false →
        hdr.Append [c] =
          ({ hdr with cards := hdr.cards ++ [{ c with value := normalizeAppend c.value }] },
            none) ∧
        isNormalized (normalizeAppend c.value) = true) ∧
    (∀ (hdr : Header) (c : Card),
      (hdr.cards.map (fun k => k.name)).contains c.name = true →
        freeFormName c.name = true →
        hdr.Append [c] = ({ hdr with cards := hdr.cards ++ [c] }, none)) ∧
    (∀ (hdr : Header) (c : Card) (w : CardValue),
      (hdr.cards.map (fun k => k.name)).contains c.name = false →
        normalizePrepend c.value = .ok w →
        hdr.Prepend [c] =
          ({ hdr with cards := { c with value := w } :: hdr.cards }, none) ∧
        w = normalizeAppend c.value ∧ isNormalized w = true) ∧
    (∀ (l : List Char) (v : CardValue), parseValue l = .ok v → isNormalized v = true) := by
  refine ⟨?_, ?_, ?_, parseValue_normalized⟩
  · intro hdr c hmem
    refine ⟨?_, normalizeAppend_normalized c.value⟩
    simp only [Header.Append, appendLoop, hmem, Bool.false_eq_true, if_false]
  · intro hdr c hmem hff
    simp only [Header.Append, appendLoop, hmem, hff, if_true]
  · intro hdr c w hmem hnorm
    have hw : w = normalizeAppend c.value := by
      cases hv : c.value <;> rw [hv] at hnorm <;>
        simp only [normalizePrepend] at hnorm <;>
        first
          | exact Except.noConfusion hnorm
          | (cases hnorm; rfl)
    refine ⟨?_, hw, by rw [hw]; exact normalizeAppend_normalized c.value⟩
    simp only [Header.Prepend, prependLoop, hmem, Bool.false_eq_true, if_false, hnorm]
    simp

/-- C7 counterexample: appending a duplicate COMMENT card whose value is
an int8 succeeds and stores the value with its original 8-bit dynamic
type - the free-form duplicate branch of `Append` skips normalisation -
so the claim that after `Header.Append` of any card every signed-integer
value has the 64-bit integer type is false as stated. -/
theorem headerAppend_counterexample :
    ((((⟨.IMAGE_HDU, 8, [], []⟩ : Header).Append [⟨"COMMENT", .nil, "a"⟩]).1.Append
        [⟨"COMMENT", .i8 5, "b"⟩])).2 = none ∧
    ((((⟨.IMAGE_HDU, 8, [], []⟩ : Header).Append [⟨"COMMENT", .nil, "a"⟩]).1.Append
        [⟨"COMMENT", .i8 5, "b"⟩])).1.cards.map (fun c => c.value) =
      [.nil, .i8 5] ∧
    isNormalized (.i8 5) = false := by
  decide

/-- C7 witness: a fresh unsigned-int card through `Append` and a numeric
token through the value parser. -/
theorem headerAppend_normalisation_witness :
    (((⟨.IMAGE_HDU, 8, [], []⟩ : Header).cards.map (fun k => k.name)).contains "X1" = false) ∧
    ((⟨.IMAGE_HDU, 8, [], []⟩ : Header).Append [⟨"X1", .u16 7, ""⟩] =
      ({ (⟨.IMAGE_HDU, 8, [], []⟩ : Header) with cards :=
          (⟨.IMAGE_HDU, 8, [], []⟩ : Header).cards ++
            [{ (⟨"X1", .u16 7, ""⟩ : Card) with
                value := normalizeAppend (⟨"X1", .u16 7, ""⟩ : Card).value }] }, none) ∧
      isNormalized (normalizeAppend (⟨"X1", .u16 7, ""⟩ : Card).value) = true) ∧
    (parseValue "                  16".toList = .ok (.int 16) ∧
      isNormalized (.int 16) = true) :=
  ⟨by decide,
    headerAppend_normalisation.1 ⟨.IMAGE_HDU, 8, [], []⟩ ⟨"X1", .u16 7, ""⟩ (by decide),
    by rfl,
    headerAppend_normalisation.2.2.2 "                  16".toList (.int 16) (by rfl)⟩

/-- C3 (amended): decoding a header stream with a duplicate non-free-form,
non-reserved card succeeds, and `Header.Get` on the result returns the
FIRST occurrence; but the duplicate is NOT dropped: both occurrences stay
in the card list of the decoded header.  A later `Header.Append` of the
same name fails with the duplicate-card error and leaves the header
unchanged. -/
theorem decode_duplicate_spec (n : String) (v1 v2 : CardValue) (c1 c2 : String)
    (h1 : (n == "CONTINUE") = false) (h2 : (n == "COMMENT") = false)
    (h3 : (n == "HISTORY") = false) (h4 : (n == "") = false)
    (h5 : (n == "END") = false) (h6 : (n == "SIMPLE") = false)
    (h7 : (n == "BITPIX") = false) (h8 : (n == "NAXIS") = false)
    (h5r : (("END" : String) == n) = false) (h6r : (("SIMPLE" : String) == n) = false)
    (h7r : (("BITPIX" : String) == n) = false) (h8r : (("NAXIS" : String) == n) = false) :
    decodeHeaderCards
        [⟨"SIMPLE", .bool true, ""⟩, ⟨"BITPIX", .int 8, ""⟩, ⟨"NAXIS", .int 0, ""⟩,
         ⟨n, v1, c1⟩, ⟨n, v2, c2⟩, ⟨"END", .nil, ""⟩] =
      .ok { htype := .IMAGE_HDU, bitpix := 8, axes := [],
            cards := [⟨"SIMPLE", .bool true, ""⟩, ⟨"BITPIX", .int 8, ""⟩,
                      ⟨"NAXIS", .int 0, ""⟩, ⟨n, normalizeAppend v1, c1⟩,
                      ⟨n, normalizeAppend v2, c2⟩, ⟨"END", .nil, ""⟩] } ∧
    Header.Get
        { htype := .IMAGE_HDU, bitpix := 8, axes := [],
          cards := [⟨"SIMPLE", .bool true, ""⟩, ⟨"BITPIX", .int 8, ""⟩,
                    ⟨"NAXIS", .int 0, ""⟩, ⟨n, normalizeAppend v1, c1⟩,
                    ⟨n, normalizeAppend v2, c2⟩, ⟨"END", .nil, ""⟩] } n =
      some ⟨n, normalizeAppend v1, c1⟩ ∧
    (List.filter (fun c => c.name == n)
        [(⟨"SIMPLE", .bool true, ""⟩ : Card), ⟨"BITPIX", .int 8, ""⟩,
         ⟨"NAXIS", .int 0, ""⟩, ⟨n, normalizeAppend v1, c1⟩,
         ⟨n, normalizeAppend v2, c2⟩, ⟨"END", .nil, ""⟩]).length = 2 ∧
    Header.Append
        { htype := .IMAGE_HDU, bitpix := 8, axes := [],
          cards := [⟨"SIMPLE", .bool true, ""⟩, ⟨"BITPIX", .int 8, ""⟩,
                    ⟨"NAXIS", .int 0, ""⟩, ⟨n, normalizeAppend v1, c1⟩,
                    ⟨n, normalizeAppend v2, c2⟩, ⟨"END", .nil, ""⟩] } [⟨n, v2, c2⟩] =
      ({ htype := .IMAGE_HDU, bitpix := 8, axes := [],
         cards := [⟨"SIMPLE", .bool true, ""⟩, ⟨"BITPIX", .int 8, ""⟩,
                   ⟨"NAXIS", .int 0, ""⟩, ⟨n, normalizeAppend v1, c1⟩,
                   ⟨n, normalizeAppend v2, c2⟩, ⟨"END", .nil, ""⟩] },
       some ("fitsio: duplicate Card [" ++ n ++ "]")) := by
  refine ⟨?_, ?_, ?_, ?_⟩
  · simp +decide only [decodeHeaderCards, collectCards, addCard, mapSet, getCard, mapGet,
      decodeAxes, readAxis, hduTypeFrom, NewHeaderE, newHeaderE, Header.Append, appendLoop,
      Header.Prepend, prependLoop, Header.Get, normalizeAppend,
      h1, h2, h3, h4, h5, h6, h7, h8, h5r, h6r, h7r, h8r,
      beq_self_eq_true, Bool.false_eq_true, Bool.or_self, Bool.or_false, Bool.false_or,
      if_true, if_false, List.contains, List.elem, List.map, List.append_nil, List.nil_append,
      List.length, List.get?, Int.toNat_zero, List.range_zero, List.mapM, List.mapM.loop,
      Option.isNone]
    rfl
  · simp only [Header.Get, List.find?, h6r, h7r, h8r, beq_self_eq_true]
  · simp only [List.filter, h6r, h7r, h8r, h5r, beq_self_eq_true, List.length]
  · simp +decide only [Header.Append, appendLoop, List.map, List.contains, List.elem,
      h2, h3, h4, h5, h6, h7, h8, beq_self_eq_true, Bool.false_eq_true, Bool.or_self,
      Bool.or_false, Bool.false_or, freeFormName, if_true, if_false]

/-- C3 counterexample: decoding a header with two `FOO` cards keeps BOTH
occurrences in the decoded card list (values 1 and 2 both present), so the
duplicate is not "silently dropped on read" - it is retained and would be
written out again on re-encoding.  Only lookups prefer the first
occurrence. -/
theorem decode_duplicate_counterexample :
    Except.map
        (fun h => (List.filter (fun c => c.name == "FOO") h.cards).map (fun c => c.value))
        (decodeHeaderCards
          [⟨"SIMPLE", .bool true, ""⟩, ⟨"BITPIX", .int 8, ""⟩, ⟨"NAXIS", .int 0, ""⟩,
           ⟨"FOO", .int 1, ""⟩, ⟨"FOO", .int 2, ""⟩, ⟨"END", .nil, ""⟩]) =
      .ok [.int 1, .int 2] := by
  rfl

/-- C3 witness: the amended duplicate-decoding theorem at the concrete name
FOO with an int16 and an int64 value. -/
theorem decode_duplicate_spec_witness :
    ((("FOO" : String) == "CONTINUE") = false ∧ (("FOO" : String) == "COMMENT") = false ∧
     (("FOO" : String) == "HISTORY") = false ∧ (("FOO" : String) == "") = false ∧
     (("FOO" : String) == "END") = false ∧ (("FOO" : String) == "SIMPLE") = false ∧
     (("FOO" : String) == "BITPIX") = false ∧ (("FOO" : String) == "NAXIS") = false ∧
     (("END" : String) == "FOO") = false ∧ (("SIMPLE" : String) == "FOO") = false ∧
     (("BITPIX" : String) == "FOO") = false ∧ (("NAXIS" : String) == "FOO") = false) ∧
    (decodeHeaderCards
        [⟨"SIMPLE", .bool true, ""⟩, ⟨"BITPIX", .int 8, ""⟩, ⟨"NAXIS", .int 0, ""⟩,
         ⟨"FOO", .i16 1, "a"⟩, ⟨"FOO", .int 2, "b"⟩, ⟨"END", .nil, ""⟩] =
      .ok { htype := .IMAGE_HDU, bitpix := 8, axes := [],
            cards := [⟨"SIMPLE", .bool true, ""⟩, ⟨"BITPIX", .int 8, ""⟩,
                      ⟨"NAXIS", .int 0, ""⟩, ⟨"FOO", normalizeAppend (.i16 1), "a"⟩,
                      ⟨"FOO", normalizeAppend (.int 2), "b"⟩, ⟨"END", .nil, ""⟩] } ∧
     Header.Get
        { htype := .IMAGE_HDU, bitpix := 8, axes := [],
          cards := [⟨"SIMPLE", .bool true, ""⟩, ⟨"BITPIX", .int 8, ""⟩,
                    ⟨"NAXIS", .int 0, ""⟩, ⟨"FOO", normalizeAppend (.i16 1), "a"⟩,
                    ⟨"FOO", normalizeAppend (.int 2), "b"⟩, ⟨"END", .nil, ""⟩] } "FOO" =
       some ⟨"FOO", normalizeAppend (.i16 1), "a"⟩ ∧
     (List.filter (fun c => c.name == "FOO")
        [(⟨"SIMPLE", .bool true, ""⟩ : Card), ⟨"BITPIX", .int 8, ""⟩,
         ⟨"NAXIS", .int 0, ""⟩, ⟨"FOO", normalizeAppend (.i16 1), "a"⟩,
         ⟨"FOO", normalizeAppend (.int 2), "b"⟩, ⟨"END", .nil, ""⟩]).length = 2 ∧
     Header.Append
        { htype := .IMAGE_HDU, bitpix := 8, axes := [],
          cards := [⟨"SIMPLE", .bool true, ""⟩, ⟨"BITPIX", .int 8, ""⟩,
                    ⟨"NAXIS", .int 0, ""⟩, ⟨"FOO", normalizeAppend (.i16 1), "a"⟩,
                    ⟨"FOO", normalizeAppend (.int 2), "b"⟩, ⟨"END", .nil, ""⟩] }
        [⟨"FOO", .int 2, "b"⟩] =
       ({ htype := .IMAGE_HDU, bitpix := 8, axes := [],
          cards := [⟨"SIMPLE", .bool true, ""⟩, ⟨"BITPIX", .int 8, ""⟩,
                    ⟨"NAXIS", .int 0, ""⟩, ⟨"FOO", normalizeAppend (.i16 1), "a"⟩,
                    ⟨"FOO", normalizeAppend (.int 2), "b"⟩, ⟨"END", .nil, ""⟩] },
        some ("fitsio: duplicate Card [" ++ "FOO" ++ "]"))) :=
  ⟨⟨by decide, by decide, by decide, by decide, by decide, by decide, by decide, by decide,
    by decide, by decide, by decide, by decide⟩,
   decode_duplicate_spec "FOO" (.i16 1) (.int 2) "a" "b" (by decide) (by decide) (by decide)
     (by decide) (by decide) (by decide) (by decide) (by decide) (by decide) (by decide)
     (by decide) (by decide)⟩
